import Mathlib

/-!
# Solution cache of the QA engine (`types/qaengine/cache.go`)

A shallow embedding of `Cache` and its methods `NewCache`, `Load`, `Write`,
`AddSolution`, `GetSolution` and `merge`, followed by theorems about them.

Conventions of the embedding

* A Go method with a pointer receiver becomes a function that takes the cache
  and returns the new cache (explicit state passing).
* A Go `error` result becomes `Option Error`: `none` is `nil`.
* `interface{}` holding an answer becomes `Option Answer`: `none` is `nil`.
* Calls to `logrus` have no effect on the cache or on the backend and are left out.
* What `cache.go` uses but does not declare (the `Problem` method `matches`,
  the constant `PasswordSolutionFormType`, `types.SchemeGroupVersion`, and the
  two functions of package `common` that touch the file system) is a parameter.
-/

namespace QAEngine

/-- A Go `error` value, by its message. -/
abbrev Error := String

/-- The value held by the `Answer` field when it is not `nil`. -/
abbrev Answer := String

/-- SolutionFormType classifies a problem (free text, choice, password, ...). -/
abbrev SolutionFormType := String

/-- Modelled from the spec: the `Problem` type is declared outside `cache.go`; the
fields are the ones the spec lists (`ID`, `Type`, `Desc`, optional `Answer`). -/
structure Problem where
  ID : String
  «Type» : SolutionFormType
  Desc : String
  Answer : Option Answer
deriving DecidableEq, Repr

/-- CacheSpec stores the cache data. -/
structure CacheSpec where
  file : String
  persistPasswords : Bool
  Problems : List Problem
deriving DecidableEq, Repr

/-- Cache stores the answers for reuse (`TypeMeta` is inlined as `Kind` and `APIVersion`). -/
structure Cache where
  Kind : String
  APIVersion : String
  Spec : CacheSpec
deriving DecidableEq, Repr

/-- QACacheKind defines kind of QA Cache. -/
def QACacheKind : String := "QACache"

/-- The declarations `cache.go` depends on that live in other files of the repository. -/
structure Env where
  /-- The constant `PasswordSolutionFormType`. -/
  PasswordSolutionFormType : SolutionFormType
  /-- The value of `types.SchemeGroupVersion.String()`. -/
  SchemeGroupVersion : String
  /-- The method `func (p *Problem) matches(np Problem) bool`, receiver first. -/
  «matches» : Problem → Problem → Bool

/-- The persistence backend: the two functions of package `common` that `cache.go`
calls, over a file-system state `σ`. -/
structure Backend (σ : Type) where
  /-- Decoding of the document at a path: `common.ReadMove2KubeYaml(file, &c)`. -/
  ReadMove2KubeYaml : σ → String → Except Error Cache
  /-- The call `common.WriteYaml(file, cache)`: its error and the file system after it. -/
  WriteYaml : σ → String → Cache → Option Error × σ

/-- The world outside the cache: the file-system state and the trace of the
documents handed to `WriteYaml` so far, oldest first. -/
structure World (σ : Type) where
  fs : σ
  writes : List (String × Cache)

/-- NewCache creates new cache instance. -/
def NewCache (env : Env) (file : String) (persistPasswords : Bool) : Cache :=
  { Kind := QACacheKind
    APIVersion := env.SchemeGroupVersion
    Spec := { file := file, persistPasswords := persistPasswords, Problems := [] } }

/-- The zero value `Cache{}`. -/
def Cache.zero : Cache :=
  { Kind := "", APIVersion := "", Spec := { file := "", persistPasswords := false, Problems := [] } }

/-- The inner loop of `merge`: is there an `op` in the sequence with `op.matches(p)`. -/
def mergeFound (env : Env) : List Problem → Problem → Bool
  | [], _ => false
  | op :: rest, p => if env.«matches» op p then true else mergeFound env rest p

/-- The outer loop of `merge` over the problems of the other cache. -/
def mergeLoop (env : Env) : List Problem → List Problem → List Problem
  | cur, [] => cur
  | cur, p :: ps =>
    if mergeFound env cur p then mergeLoop env cur ps
    else mergeLoop env (cur ++ [p]) ps

/-- The method `merge`: the receiver after merging `c` into it. -/
def Cache.merge (env : Env) (cache : Cache) (c : Cache) : Cache :=
  { cache with Spec := { cache.Spec with
      Problems := mergeLoop env cache.Spec.Problems c.Spec.Problems } }

/-- Load loads and merges cache. -/
def Cache.Load {σ : Type} (env : Env) (be : Backend σ) (cache : Cache) (w : World σ) :
    Option Error × Cache × World σ :=
  match be.ReadMove2KubeYaml w.fs cache.Spec.file with
  | .error err => (some err, cache, w)
  | .ok c => (none, cache.merge env c, w)

/-- Write writes cache to disk. -/
def Cache.Write {σ : Type} (be : Backend σ) (cache : Cache) (w : World σ) :
    Option Error × World σ :=
  let r := be.WriteYaml w.fs cache.Spec.file cache
  (r.1, { fs := r.2, writes := w.writes ++ [(cache.Spec.file, cache)] })

/-- The loop of `AddSolution`: overwrite the first record with the ID of `p`;
the flag is `added`. -/
def addLoop (p : Problem) : List Problem → List Problem × Bool
  | [] => ([], false)
  | cp :: rest =>
    if cp.ID = p.ID then (p :: rest, true)
    else ((addLoop p rest).1.cons cp, (addLoop p rest).2)

/-- The update of the stored sequence in `AddSolution`: the loop, then the
append when `added` is still false. -/
def addProblems (p : Problem) (problems : List Problem) : List Problem :=
  if !(addLoop p problems).2 then (addLoop p problems).1 ++ [p] else (addLoop p problems).1

/-- AddSolution adds a problem to solution cache. -/
def Cache.AddSolution {σ : Type} (env : Env) (be : Backend σ) (cache : Cache) (w : World σ)
    (p : Problem) : Option Error × Cache × World σ :=
  if !cache.Spec.persistPasswords && p.«Type» == env.PasswordSolutionFormType then
    (some "passwords are not added to the cache", cache, w)
  else if p.Answer = none then
    (some "unresolved problem. Not going to be added to cache", cache, w)
  else
    let cache1 : Cache :=
      { cache with Spec := { cache.Spec with Problems := addProblems p cache.Spec.Problems } }
    let wr := cache1.Write be w
    match wr.1 with
    | some err => (some err, cache1, wr.2)
    | none => (none, cache1, wr.2)

/-- The condition tested on a stored record `cp` in the loop of `GetSolution`:
`(cp.ID == p.ID || cp.matches(p)) && cp.Answer != nil`. -/
abbrev qualifies (env : Env) (p cp : Problem) : Prop :=
  (cp.ID = p.ID ∨ env.«matches» cp p = true) ∧ cp.Answer ≠ none

/-- The loop of `GetSolution` over the stored problems; the error message is the
source's without the printed problem. -/
def getLoop (env : Env) (p : Problem) : List Problem → Problem × Option Error
  | [] => (p, some "the problem was not found in the cache")
  | cp :: rest =>
    if qualifies env p cp then
      ({ p with Answer := cp.Answer }, none)
    else getLoop env p rest

/-- GetSolution reads a solution for the problem. -/
def Cache.GetSolution (env : Env) (cache : Cache) (p : Problem) : Problem × Option Error :=
  if p.Answer ≠ none then (p, none)
  else getLoop env p cache.Spec.Problems

/-- The loop of `GetSolution` with the receiver and the world threaded through it:
the body assigns to the parameter `p` only, and calls nothing of the backend. -/
def getLoopState {σ : Type} (env : Env) (cache : Cache) (w : World σ) (p : Problem) :
    List Problem → (Problem × Option Error) × Cache × World σ
  | [] => ((p, some "the problem was not found in the cache"), cache, w)
  | cp :: rest =>
    if qualifies env p cp then
      (({ p with Answer := cp.Answer }, none), cache, w)
    else getLoopState env cache w p rest

/-- The method `GetSolution` in state-passing form, as the other methods with a
pointer receiver: its results, and the cache and the world after the call. -/
def Cache.GetSolutionState {σ : Type} (env : Env) (cache : Cache) (w : World σ) (p : Problem) :
    (Problem × Option Error) × Cache × World σ :=
  if p.Answer ≠ none then ((p, none), cache, w)
  else getLoopState env cache w p cache.Spec.Problems

/-- A call made by the owner of a cache: `Load()`, `AddSolution(p)` or `Write()`. -/
inductive Op where
  | load : Op
  | add : Problem → Op
  | write : Op
deriving DecidableEq, Repr

/-- One call on the cache; the returned error is dropped, as a caller that goes on does. -/
def step {σ : Type} (env : Env) (be : Backend σ) (st : Cache × World σ) : Op → Cache × World σ
  | .load => (st.1.Load env be st.2).2
  | .add p => (st.1.AddSolution env be st.2 p).2
  | .write => (st.1, (st.1.Write be st.2).2)

/-- A sequence of calls, in order, from a given cache and world. -/
def run {σ : Type} (env : Env) (be : Backend σ) (st : Cache × World σ) (ops : List Op) :
    Cache × World σ :=
  ops.foldl (step env be) st

/-- The document a `Load()` call decodes in a given state, if the read succeeds. -/
def loadedDoc {σ : Type} (be : Backend σ) (st : Cache × World σ) : List Cache :=
  match be.ReadMove2KubeYaml st.2.fs st.1.Spec.file with
  | .ok c => [c]
  | .error _ => []

/-- The documents decoded by the `Load()` calls of a sequence of calls, in order: each
is read from the file system as the earlier calls of the sequence left it. -/
def loadedDocs {σ : Type} (env : Env) (be : Backend σ) :
    Cache × World σ → List Op → List Cache
  | _, [] => []
  | st, .load :: ops => loadedDoc be st ++ loadedDocs env be (step env be st .load) ops
  | st, .add p :: ops => loadedDocs env be (step env be st (.add p)) ops
  | st, .write :: ops => loadedDocs env be (step env be st .write) ops

/-! ## Fixtures for concrete evaluation -/

/-- A file system held in memory: the documents by path, and whether writes fail. -/
structure MemFS where
  files : List (String × Cache)
  readOnly : Bool
deriving DecidableEq, Repr

/-- A backend over `MemFS`: a read finds the last document written at the path, a
write fails on a read-only file system and otherwise records the document. -/
def memBackend : Backend MemFS where
  ReadMove2KubeYaml := fun fs path =>
    match fs.files.find? (fun e => e.1 == path) with
    | some e => .ok e.2
    | none => .error "no such file"
  WriteYaml := fun fs path doc =>
    if fs.readOnly then (some "read-only file system", fs)
    else (none, { fs with files := (path, doc) :: fs.files })

/-- An environment in which two problems match when type and description agree. -/
def descEnv : Env where
  PasswordSolutionFormType := "Password"
  SchemeGroupVersion := "move2kube.konveyor.io/v1alpha1"
  «matches» := fun op p => op.«Type» == p.Type && op.Desc == p.Desc

/-- An environment in which the receiver matches by description and the description
`*` in the receiver matches every problem: `matches` need not be symmetric. -/
def wildEnv : Env where
  PasswordSolutionFormType := "Password"
  SchemeGroupVersion := "move2kube.konveyor.io/v1alpha1"
  «matches» := fun op p => op.Desc == "*" || op.Desc == p.Desc

/-- A cache bound to a path with a given policy flag and stored sequence. -/
def cacheOf (file : String) (persistPasswords : Bool) (problems : List Problem) : Cache :=
  { Kind := QACacheKind, APIVersion := "move2kube.konveyor.io/v1alpha1",
    Spec := { file := file, persistPasswords := persistPasswords, Problems := problems } }

/-- A world over `MemFS` holding the given documents, with an empty write trace. -/
def memWorld (files : List (String × Cache)) (readOnly : Bool) : World MemFS :=
  { fs := { files := files, readOnly := readOnly }, writes := [] }

/-- A world over `MemFS` with no document and an empty write trace. -/
def emptyWorld (readOnly : Bool) : World MemFS := memWorld [] readOnly

/-! ## The operations on concrete inputs -/

example : Cache.GetSolution descEnv (cacheOf "f" false [⟨"q1", "Input", "port?", some "8080"⟩])
    ⟨"q1", "", "", none⟩ = (⟨"q1", "", "", some "8080"⟩, none) := by decide

example : (Cache.GetSolution descEnv (cacheOf "f" false [⟨"q1", "Input", "port?", some "8080"⟩])
    ⟨"q2", "", "", none⟩).1 = ⟨"q2", "", "", none⟩ := by decide

example : addProblems ⟨"b", "", "", some "9"⟩
    [⟨"a", "", "", some "1"⟩, ⟨"b", "", "", some "2"⟩, ⟨"b", "", "", some "3"⟩]
    = [⟨"a", "", "", some "1"⟩, ⟨"b", "", "", some "9"⟩, ⟨"b", "", "", some "3"⟩] := by decide

/-! ## Lemmas on the loops -/

theorem addProblems_nil (p : Problem) : addProblems p [] = [p] := by
  simp [addProblems, addLoop]

theorem addProblems_cons_eq (p cp : Problem) (rest : List Problem) (h : cp.ID = p.ID) :
    addProblems p (cp :: rest) = p :: rest := by
  simp [addProblems, addLoop, h]

theorem addProblems_cons_ne (p cp : Problem) (rest : List Problem) (h : cp.ID ≠ p.ID) :
    addProblems p (cp :: rest) = cp :: addProblems p rest := by
  simp only [addProblems, addLoop, h, if_false]
  cases (addLoop p rest).2 <;> simp

theorem addProblems_of_not_mem (p : Problem) (s : List Problem)
    (h : ∀ r ∈ s, r.ID ≠ p.ID) : addProblems p s = s ++ [p] := by
  induction s with
  | nil => exact addProblems_nil p
  | cons cp rest ih =>
    rw [addProblems_cons_ne p cp rest (h cp (List.mem_cons_self _ _)),
      ih (fun r hr => h r (List.mem_cons_of_mem _ hr))]
    rfl

theorem addProblems_of_split (p cp : Problem) (pre post : List Problem)
    (hpre : ∀ r ∈ pre, r.ID ≠ p.ID) (hcp : cp.ID = p.ID) :
    addProblems p (pre ++ cp :: post) = pre ++ p :: post := by
  induction pre with
  | nil => exact addProblems_cons_eq p cp post hcp
  | cons a pre ih =>
    rw [List.cons_append, addProblems_cons_ne p a _ (hpre a (List.mem_cons_self _ _)),
      ih (fun r hr => hpre r (List.mem_cons_of_mem _ hr))]
    rfl

/-- A rejected problem leaves the cache and the world as they were. -/
theorem AddSolution_rejected {σ : Type} (env : Env) (be : Backend σ) (cache : Cache)
    (w : World σ) (p : Problem)
    (h : (cache.Spec.persistPasswords = false ∧ p.«Type» = env.PasswordSolutionFormType)
      ∨ p.Answer = none) :
    (cache.AddSolution env be w p).1 ≠ none ∧ (cache.AddSolution env be w p).2 = (cache, w) := by
  unfold Cache.AddSolution
  by_cases hg : (!cache.Spec.persistPasswords && p.«Type» == env.PasswordSolutionFormType) = true
  · rw [if_pos hg]; simp
  · rw [if_neg hg]
    have ha : p.Answer = none := by
      rcases h with ⟨h1, h2⟩ | h
      · exact absurd (by simp [h1, h2]) hg
      · exact h
    rw [if_pos ha]; simp

/-- An accepted problem updates the stored sequence by `addProblems`, keeps the
binding, and hands exactly the updated cache to `WriteYaml`. -/
theorem AddSolution_accepted {σ : Type} (env : Env) (be : Backend σ) (cache : Cache)
    (w : World σ) (p : Problem)
    (hgate : ¬(cache.Spec.persistPasswords = false ∧ p.«Type» = env.PasswordSolutionFormType))
    (hans : p.Answer ≠ none) :
    (cache.AddSolution env be w p).2.1
      = { cache with Spec := { cache.Spec with Problems := addProblems p cache.Spec.Problems } }
    ∧ (cache.AddSolution env be w p).2.2.writes
      = w.writes ++ [(cache.Spec.file, (cache.AddSolution env be w p).2.1)] := by
  unfold Cache.AddSolution
  have hg : ¬((!cache.Spec.persistPasswords && p.«Type» == env.PasswordSolutionFormType) = true) := by
    intro hc
    simp only [Bool.and_eq_true, Bool.not_eq_true', beq_iff_eq] at hc
    exact hgate hc
  rw [if_neg hg, if_neg hans]
  simp only [Cache.Write]
  split <;> simp

theorem addProblems_shape (p : Problem) (s : List Problem) :
    ∃ pre post, addProblems p s = pre ++ p :: post ∧ ∀ r ∈ pre, r ∈ s ∧ r.ID ≠ p.ID := by
  induction s with
  | nil => exact ⟨[], [], by simp [addProblems_nil], by simp⟩
  | cons cp rest ih =>
    by_cases h : cp.ID = p.ID
    · exact ⟨[], rest, by simp [addProblems_cons_eq p cp rest h], by simp⟩
    · obtain ⟨pre, post, he, hpre⟩ := ih
      refine ⟨cp :: pre, post, by simp [addProblems_cons_ne p cp rest h, he], ?_⟩
      intro r hr
      rcases List.mem_cons.mp hr with rfl | hr
      · exact ⟨List.mem_cons_self _ _, h⟩
      · exact ⟨List.mem_cons_of_mem _ (hpre r hr).1, (hpre r hr).2⟩

theorem getLoop_of_none (env : Env) (p : Problem) (s : List Problem)
    (h : ∀ r ∈ s, ¬ qualifies env p r) :
    getLoop env p s = (p, some "the problem was not found in the cache") := by
  induction s with
  | nil => rfl
  | cons cp rest ih =>
    rw [getLoop, if_neg (h cp (List.mem_cons_self _ _))]
    exact ih (fun r hr => h r (List.mem_cons_of_mem _ hr))

theorem getLoop_of_split (env : Env) (p cp : Problem) (pre post : List Problem)
    (hpre : ∀ r ∈ pre, ¬ qualifies env p r) (hcp : qualifies env p cp) :
    getLoop env p (pre ++ cp :: post) = ({ p with Answer := cp.Answer }, none) := by
  induction pre with
  | nil => rw [List.nil_append, getLoop, if_pos hcp]
  | cons a pre ih =>
    rw [List.cons_append, getLoop, if_neg (hpre a (List.mem_cons_self _ _))]
    exact ih (fun r hr => hpre r (List.mem_cons_of_mem _ hr))

theorem getLoop_error_iff (env : Env) (p : Problem) (s : List Problem) :
    (getLoop env p s).2 ≠ none ↔ ∀ r ∈ s, ¬ qualifies env p r := by
  induction s with
  | nil => simp [getLoop]
  | cons cp rest ih =>
    by_cases h : qualifies env p cp
    · rw [getLoop, if_pos h]
      constructor
      · intro hc; exact absurd rfl hc
      · intro hc; exact absurd h (hc cp (List.mem_cons_self _ _))
    · rw [getLoop, if_neg h, ih]
      constructor
      · intro hc r hr
        rcases List.mem_cons.mp hr with rfl | hr
        · exact h
        · exact hc r hr
      · intro hc r hr
        exact hc r (List.mem_cons_of_mem _ hr)

theorem AddSolution_persistPasswords {σ : Type} (env : Env) (be : Backend σ) (cache : Cache)
    (w : World σ) (p : Problem) :
    (cache.AddSolution env be w p).2.1.Spec.persistPasswords = cache.Spec.persistPasswords := by
  unfold Cache.AddSolution
  split
  · rfl
  · split
    · rfl
    · simp only [Cache.Write]
      split <;> rfl

/-- The stored sequence after `AddSolution` is the old one or the one `addProblems` gives. -/
theorem AddSolution_problems {σ : Type} (env : Env) (be : Backend σ) (cache : Cache)
    (w : World σ) (p : Problem) :
    (cache.AddSolution env be w p).2.1.Spec.Problems = cache.Spec.Problems
    ∨ (cache.AddSolution env be w p).2.1.Spec.Problems = addProblems p cache.Spec.Problems := by
  unfold Cache.AddSolution
  split
  · exact Or.inl rfl
  · split
    · exact Or.inl rfl
    · simp only [Cache.Write]
      split <;> exact Or.inr rfl

/-- When at most one stored record has the ID of `p`, exactly `p` has it afterwards. -/
theorem filter_addProblems (p : Problem) (s : List Problem)
    (h : (s.filter (fun r => decide (r.ID = p.ID))).length ≤ 1) :
    (addProblems p s).filter (fun r => decide (r.ID = p.ID)) = [p] := by
  induction s with
  | nil => simp [addProblems_nil]
  | cons cp rest ih =>
    by_cases hc : cp.ID = p.ID
    · rw [addProblems_cons_eq p cp rest hc]
      have hlen : (rest.filter (fun r => decide (r.ID = p.ID))).length = 0 := by
        simp only [List.filter_cons, hc, decide_True, if_true, List.length_cons] at h
        omega
      simp [List.filter_cons, List.length_eq_zero.mp hlen]
    · rw [addProblems_cons_ne p cp rest hc]
      have h2 : (rest.filter (fun r => decide (r.ID = p.ID))).length ≤ 1 := by
        simpa [List.filter_cons, hc] using h
      simp [List.filter_cons, hc, ih h2]

theorem mergeFound_eq_true_iff (env : Env) (cur : List Problem) (p : Problem) :
    mergeFound env cur p = true ↔ ∃ op ∈ cur, env.«matches» op p = true := by
  induction cur with
  | nil => simp [mergeFound]
  | cons a rest ih =>
    by_cases h : env.«matches» a p = true
    · simp [mergeFound, h]
    · simp [mergeFound, h, ih]

theorem mergeLoop_append (env : Env) (xs ys cur : List Problem) :
    mergeLoop env cur (xs ++ ys) = mergeLoop env (mergeLoop env cur xs) ys := by
  induction xs generalizing cur with
  | nil => rfl
  | cons x xs ih =>
    rw [List.cons_append, mergeLoop, mergeLoop]
    split
    · exact ih cur
    · exact ih (cur ++ [x])

theorem mergeLoop_additive (env : Env) (ps cur : List Problem) :
    ∃ ext, mergeLoop env cur ps = cur ++ ext ∧ ext.Sublist ps := by
  induction ps generalizing cur with
  | nil => exact ⟨[], by simp [mergeLoop], List.Sublist.refl _⟩
  | cons p ps ih =>
    rw [mergeLoop]
    split
    · obtain ⟨ext, he, hs⟩ := ih cur
      exact ⟨ext, he, List.Sublist.cons p hs⟩
    · obtain ⟨ext, he, hs⟩ := ih (cur ++ [p])
      exact ⟨p :: ext, by rw [he, List.append_assoc]; rfl, List.Sublist.cons₂ p hs⟩

/-- The loop of `merge` keeps the property that no record matches a later one. -/
theorem mergeLoop_pairwise (env : Env) (ps cur : List Problem)
    (h : cur.Pairwise (fun op p => env.«matches» op p = false)) :
    (mergeLoop env cur ps).Pairwise (fun op p => env.«matches» op p = false) := by
  induction ps generalizing cur with
  | nil => exact h
  | cons p ps ih =>
    rw [mergeLoop]
    split
    · exact ih cur h
    · rename_i hf
      apply ih
      rw [List.pairwise_append]
      refine ⟨h, List.pairwise_singleton _ _, ?_⟩
      intro a ha b hb
      rw [List.mem_singleton.mp hb]
      cases hm : env.«matches» a p
      · rfl
      · exact absurd ((mergeFound_eq_true_iff env cur p).mpr ⟨a, ha, hm⟩) hf

theorem Load_pairwise {σ : Type} (env : Env) (be : Backend σ) (cache : Cache) (w : World σ)
    (h : cache.Spec.Problems.Pairwise (fun op p => env.«matches» op p = false)) :
    (cache.Load env be w).2.1.Spec.Problems.Pairwise
      (fun op p => env.«matches» op p = false) := by
  unfold Cache.Load
  split
  · exact h
  · exact mergeLoop_pairwise env _ _ h

theorem run_loads_pairwise {σ : Type} (env : Env) (be : Backend σ) (ops : List Op)
    (st : Cache × World σ) (hops : ∀ o ∈ ops, o = Op.load)
    (h : st.1.Spec.Problems.Pairwise (fun op p => env.«matches» op p = false)) :
    (run env be st ops).1.Spec.Problems.Pairwise
      (fun op p => env.«matches» op p = false) := by
  induction ops generalizing st with
  | nil => exact h
  | cons o ops ih =>
    have ho : o = Op.load := hops o (List.mem_cons_self _ _)
    subst ho
    show (run env be (step env be st Op.load) ops).1.Spec.Problems.Pairwise _
    apply ih _ (fun o ho => hops o (List.mem_cons_of_mem _ ho))
    exact Load_pairwise env be st.1 st.2 h

theorem mergeLoop_of_all_found (env : Env) (ps cur : List Problem)
    (h : ∀ p ∈ ps, mergeFound env cur p = true) : mergeLoop env cur ps = cur := by
  induction ps with
  | nil => rfl
  | cons p ps ih =>
    rw [mergeLoop, if_pos (h p (List.mem_cons_self _ _))]
    exact ih (fun q hq => h q (List.mem_cons_of_mem _ hq))

theorem mergeLoop_of_none_found (env : Env) (ps cur : List Problem)
    (hcross : ∀ a ∈ cur, ∀ b ∈ ps, env.«matches» a b = false)
    (hself : ps.Pairwise (fun a b => env.«matches» a b = false)) :
    mergeLoop env cur ps = cur ++ ps := by
  induction ps generalizing cur with
  | nil => simp [mergeLoop]
  | cons p ps ih =>
    have hnot : ¬ mergeFound env cur p = true := by
      rw [mergeFound_eq_true_iff]
      rintro ⟨a, ha, hm⟩
      rw [hcross a ha p (List.mem_cons_self _ _)] at hm
      exact Bool.noConfusion hm
    rw [mergeLoop, if_neg hnot, ih (cur ++ [p]) ?_ (List.Pairwise.of_cons hself)]
    · simp
    · intro a ha b hb
      rcases List.mem_append.mp ha with ha | ha
      · exact hcross a ha b (List.mem_cons_of_mem _ hb)
      · rw [List.mem_singleton.mp ha]
        exact List.rel_of_pairwise_cons hself hb

/-- With a reflexive `matches`, every problem of the merged sequence is matched by
a record of the result. -/
theorem mergeLoop_covers (env : Env) (hrefl : ∀ p, env.«matches» p p = true)
    (ps cur : List Problem) :
    ∀ p ∈ ps, mergeFound env (mergeLoop env cur ps) p = true := by
  induction ps generalizing cur with
  | nil => intro p hp; cases hp
  | cons q ps ih =>
    intro p hp
    rcases List.mem_cons.mp hp with rfl | hp
    · rw [mergeLoop]
      split
      · rename_i hf
        obtain ⟨ext, he, _⟩ := mergeLoop_additive env ps cur
        obtain ⟨op, hop, hm⟩ := (mergeFound_eq_true_iff env cur p).mp hf
        rw [he, mergeFound_eq_true_iff]
        exact ⟨op, List.mem_append_left _ hop, hm⟩
      · obtain ⟨ext, he, _⟩ := mergeLoop_additive env ps (cur ++ [p])
        rw [he, mergeFound_eq_true_iff]
        exact ⟨p, List.mem_append_left _ (List.mem_append_right _ (List.mem_singleton_self p)),
          hrefl p⟩
    · rw [mergeLoop]
      split
      · exact ih cur p hp
      · exact ih (cur ++ [q]) p hp

theorem mem_addProblems_self (p : Problem) (s : List Problem) : p ∈ addProblems p s := by
  obtain ⟨pre, post, he, _⟩ := addProblems_shape p s
  rw [he]
  exact List.mem_append_right _ (List.mem_cons_self _ _)

/-- After the update of `AddSolution` the loop of `GetSolution` finds `p` first, unless a
stored record with another ID and a present answer matches the problem looked up. -/
theorem getLoop_addProblems (env : Env) (p p' : Problem) (s : List Problem)
    (hans : p.Answer ≠ none) (hid : p'.ID = p.ID)
    (hshadow : ∀ cp ∈ s, cp.ID ≠ p.ID → cp.Answer ≠ none → env.«matches» cp p' = false) :
    getLoop env p' (addProblems p s) = ({ p' with Answer := p.Answer }, none) := by
  obtain ⟨pre, post, he, hpre⟩ := addProblems_shape p s
  rw [he]
  apply getLoop_of_split
  · rintro r hr ⟨hq, ha⟩
    rcases hq with hq | hq
    · exact (hpre r hr).2 (hq.trans hid)
    · have := hshadow r (hpre r hr).1 (hpre r hr).2 ha
      rw [hq] at this
      exact Bool.noConfusion this
  · exact ⟨Or.inl hid.symm, hans⟩

/-- The result of `AddSolution` on an accepted problem, in terms of the call to `WriteYaml`. -/
theorem AddSolution_accepted_eq {σ : Type} (env : Env) (be : Backend σ) (cache : Cache)
    (w : World σ) (p : Problem)
    (hgate : ¬(cache.Spec.persistPasswords = false ∧ p.«Type» = env.PasswordSolutionFormType))
    (hans : p.Answer ≠ none) :
    cache.AddSolution env be w p
      = ((be.WriteYaml w.fs cache.Spec.file
            { cache with Spec := { cache.Spec with
                Problems := addProblems p cache.Spec.Problems } }).1,
          { cache with Spec := { cache.Spec with Problems := addProblems p cache.Spec.Problems } },
          { fs := (be.WriteYaml w.fs cache.Spec.file
              { cache with Spec := { cache.Spec with
                  Problems := addProblems p cache.Spec.Problems } }).2,
            writes := w.writes ++ [(cache.Spec.file,
              { cache with Spec := { cache.Spec with
                  Problems := addProblems p cache.Spec.Problems } })] }) := by
  unfold Cache.AddSolution
  have hg : ¬((!cache.Spec.persistPasswords && p.«Type» == env.PasswordSolutionFormType) = true) := by
    intro hc
    simp only [Bool.and_eq_true, Bool.not_eq_true', beq_iff_eq] at hc
    exact hgate hc
  rw [if_neg hg, if_neg hans]
  simp only [Cache.Write]
  split
  · rename_i err heq
    rw [heq]
  · rename_i heq
    rw [heq]

theorem mem_addProblems (p r : Problem) (s : List Problem) (h : r ∈ addProblems p s) :
    r ∈ s ∨ r = p := by
  induction s with
  | nil =>
    rw [addProblems_nil] at h
    exact Or.inr (List.mem_singleton.mp h)
  | cons cp rest ih =>
    by_cases hc : cp.ID = p.ID
    · rw [addProblems_cons_eq p cp rest hc] at h
      rcases List.mem_cons.mp h with h | h
      · exact Or.inr h
      · exact Or.inl (List.mem_cons_of_mem _ h)
    · rw [addProblems_cons_ne p cp rest hc] at h
      rcases List.mem_cons.mp h with h | h
      · exact Or.inl (h ▸ List.mem_cons_self _ _)
      · rcases ih h with h | h
        · exact Or.inl (List.mem_cons_of_mem _ h)
        · exact Or.inr h

theorem mem_mergeLoop (env : Env) (r : Problem) (cur ps : List Problem)
    (h : r ∈ mergeLoop env cur ps) : r ∈ cur ∨ r ∈ ps := by
  obtain ⟨ext, he, hs⟩ := mergeLoop_additive env ps cur
  rw [he] at h
  rcases List.mem_append.mp h with h | h
  · exact Or.inl h
  · exact Or.inr (hs.subset h)

/-- One call keeps a property `P` of the stored records and of the documents written
since a given trace, when the document the call reads (if it is a `Load`) has it and
every accepted problem has it. -/
theorem step_keeps {σ : Type} (env : Env) (be : Backend σ) (P : Problem → Prop) (flag : Bool)
    (base : List (String × Cache))
    (hacc : ∀ p : Problem, p.Answer ≠ none →
      ¬(flag = false ∧ p.«Type» = env.PasswordSolutionFormType) → P p)
    (st : Cache × World σ) (o : Op)
    (hread : o = Op.load → ∀ c ∈ loadedDoc be st, ∀ r ∈ c.Spec.Problems, P r)
    (h : st.1.Spec.persistPasswords = flag ∧ (∀ r ∈ st.1.Spec.Problems, P r)
      ∧ ∀ d ∈ st.2.writes, d ∈ base ∨ ∀ r ∈ d.2.Spec.Problems, P r) :
    (step env be st o).1.Spec.persistPasswords = flag
    ∧ (∀ r ∈ (step env be st o).1.Spec.Problems, P r)
    ∧ ∀ d ∈ (step env be st o).2.writes, d ∈ base ∨ ∀ r ∈ d.2.Spec.Problems, P r := by
  obtain ⟨hflag, hst, hwr⟩ := h
  cases o with
  | load =>
    have hdoc := hread rfl
    show ((st.1.Load env be st.2).2).1.Spec.persistPasswords = flag
      ∧ (∀ r ∈ ((st.1.Load env be st.2).2).1.Spec.Problems, P r)
      ∧ ∀ d ∈ ((st.1.Load env be st.2).2).2.writes, d ∈ base ∨ ∀ r ∈ d.2.Spec.Problems, P r
    unfold loadedDoc at hdoc
    unfold Cache.Load
    cases hr : be.ReadMove2KubeYaml st.2.fs st.1.Spec.file with
    | error e => exact ⟨hflag, hst, hwr⟩
    | ok c =>
      rw [hr] at hdoc
      refine ⟨hflag, ?_, hwr⟩
      intro r hmem
      rcases mem_mergeLoop env r _ _ hmem with hm | hm
      · exact hst r hm
      · exact hdoc c (List.mem_singleton_self c) r hm
  | add p =>
    show ((st.1.AddSolution env be st.2 p).2).1.Spec.persistPasswords = flag
      ∧ (∀ r ∈ ((st.1.AddSolution env be st.2 p).2).1.Spec.Problems, P r)
      ∧ ∀ d ∈ ((st.1.AddSolution env be st.2 p).2).2.writes,
        d ∈ base ∨ ∀ r ∈ d.2.Spec.Problems, P r
    by_cases hrej : (st.1.Spec.persistPasswords = false
        ∧ p.«Type» = env.PasswordSolutionFormType) ∨ p.Answer = none
    · rw [(AddSolution_rejected env be st.1 st.2 p hrej).2]
      exact ⟨hflag, hst, hwr⟩
    · have hgate : ¬(st.1.Spec.persistPasswords = false
          ∧ p.«Type» = env.PasswordSolutionFormType) := fun hc => hrej (Or.inl hc)
      have hans : p.Answer ≠ none := fun hc => hrej (Or.inr hc)
      have hp : P p := hacc p hans (by rw [← hflag]; exact hgate)
      have hnew : ∀ r ∈ addProblems p st.1.Spec.Problems, P r := by
        intro r hmem
        rcases mem_addProblems p r _ hmem with hm | hm
        · exact hst r hm
        · rw [hm]; exact hp
      rw [AddSolution_accepted_eq env be st.1 st.2 p hgate hans]
      refine ⟨hflag, hnew, ?_⟩
      intro d hd
      rcases List.mem_append.mp hd with hd | hd
      · exact hwr d hd
      · rw [List.mem_singleton.mp hd]
        exact Or.inr hnew
  | write =>
    show st.1.Spec.persistPasswords = flag ∧ (∀ r ∈ st.1.Spec.Problems, P r)
      ∧ ∀ d ∈ (st.1.Write be st.2).2.writes, d ∈ base ∨ ∀ r ∈ d.2.Spec.Problems, P r
    refine ⟨hflag, hst, ?_⟩
    intro d hd
    unfold Cache.Write at hd
    rcases List.mem_append.mp hd with hd | hd
    · exact hwr d hd
    · rw [List.mem_singleton.mp hd]
      exact Or.inr hst

/-- A sequence of calls keeps the property `P`, when the documents its `Load` calls
read have it and every accepted problem has it. -/
theorem run_keeps {σ : Type} (env : Env) (be : Backend σ) (P : Problem → Prop) (flag : Bool)
    (base : List (String × Cache))
    (hacc : ∀ p : Problem, p.Answer ≠ none →
      ¬(flag = false ∧ p.«Type» = env.PasswordSolutionFormType) → P p)
    (ops : List Op) (st : Cache × World σ)
    (hloads : ∀ c ∈ loadedDocs env be st ops, ∀ r ∈ c.Spec.Problems, P r)
    (h : st.1.Spec.persistPasswords = flag ∧ (∀ r ∈ st.1.Spec.Problems, P r)
      ∧ ∀ d ∈ st.2.writes, d ∈ base ∨ ∀ r ∈ d.2.Spec.Problems, P r) :
    (run env be st ops).1.Spec.persistPasswords = flag
    ∧ (∀ r ∈ (run env be st ops).1.Spec.Problems, P r)
    ∧ ∀ d ∈ (run env be st ops).2.writes, d ∈ base ∨ ∀ r ∈ d.2.Spec.Problems, P r := by
  induction ops generalizing st with
  | nil => exact h
  | cons o ops ih =>
    show (run env be (step env be st o) ops).1.Spec.persistPasswords = flag ∧ _
    cases o with
    | load =>
      rw [loadedDocs] at hloads
      exact ih _ (fun c hc => hloads c (List.mem_append_right _ hc))
        (step_keeps env be P flag base hacc st Op.load
          (fun _ c hc => hloads c (List.mem_append_left _ hc)) h)
    | add p =>
      rw [loadedDocs] at hloads
      exact ih _ hloads
        (step_keeps env be P flag base hacc st (Op.add p) (fun ho => Op.noConfusion ho) h)
    | write =>
      rw [loadedDocs] at hloads
      exact ih _ hloads
        (step_keeps env be P flag base hacc st Op.write (fun ho => Op.noConfusion ho) h)

theorem getLoop_ok_answer (env : Env) (p : Problem) (s : List Problem)
    (h : (getLoop env p s).2 = none) : (getLoop env p s).1.Answer ≠ none := by
  induction s with
  | nil => simp [getLoop] at h
  | cons cp rest ih =>
    by_cases hq : qualifies env p cp
    · rw [getLoop, if_pos hq]
      exact hq.2
    · rw [getLoop, if_neg hq] at h ⊢
      exact ih h

theorem length_addProblems (p : Problem) (s : List Problem) :
    s.length ≤ (addProblems p s).length ∧ (addProblems p s).length ≤ s.length + 1 := by
  induction s with
  | nil => simp [addProblems_nil]
  | cons cp rest ih =>
    by_cases hc : cp.ID = p.ID
    · rw [addProblems_cons_eq p cp rest hc]
      simp
    · rw [addProblems_cons_ne p cp rest hc]
      simp only [List.length_cons]
      omega

theorem addProblems_ids_nodup (p : Problem) (s : List Problem)
    (h : (s.map Problem.ID).Nodup) : ((addProblems p s).map Problem.ID).Nodup := by
  induction s with
  | nil => simp [addProblems_nil]
  | cons cp rest ih =>
    rw [List.map_cons, List.nodup_cons] at h
    by_cases hc : cp.ID = p.ID
    · rw [addProblems_cons_eq p cp rest hc, List.map_cons, List.nodup_cons, ← hc]
      exact h
    · rw [addProblems_cons_ne p cp rest hc, List.map_cons, List.nodup_cons]
      refine ⟨?_, ih h.2⟩
      intro hmem
      obtain ⟨r, hr, hid⟩ := List.mem_map.mp hmem
      rcases mem_addProblems p r rest hr with hr | hr
      · exact h.1 (List.mem_map.mpr ⟨r, hr, hid⟩)
      · rw [hr] at hid
        exact hc hid.symm

theorem getLoopState_eq {σ : Type} (env : Env) (cache : Cache) (w : World σ) (p : Problem)
    (s : List Problem) : getLoopState env cache w p s = (getLoop env p s, cache, w) := by
  induction s with
  | nil => rfl
  | cons cp rest ih =>
    by_cases hq : qualifies env p cp
    · rw [getLoopState, getLoop, if_pos hq, if_pos hq]
    · rw [getLoopState, getLoop, if_neg hq, if_neg hq]
      exact ih

/-! ## Claims -/

/-- C1 (as amended): for every cache state and every problem `p` accepted by
`AddSolution` (present `Answer`, not a password-typed problem under
`persistPasswords = false`), if no stored record with another ID and a present
`Answer` matches `p'`, then after `AddSolution(p)` the call `GetSolution(p')` on a
problem `p'` with `p'.ID = p.ID` and absent `Answer` returns, without error, `p'`
with its `Answer` set to `p.Answer`; this holds whether or not the write succeeded. -/
theorem C1_add_then_get {σ : Type} (env : Env) (be : Backend σ) (cache : Cache) (w : World σ)
    (p p' : Problem)
    (hans : p.Answer ≠ none)
    (hgate : ¬(cache.Spec.persistPasswords = false ∧ p.«Type» = env.PasswordSolutionFormType))
    (hid : p'.ID = p.ID) (hp' : p'.Answer = none)
    (hshadow : ∀ cp ∈ cache.Spec.Problems, cp.ID ≠ p.ID → cp.Answer ≠ none →
      env.«matches» cp p' = false) :
    (cache.AddSolution env be w p).2.1.GetSolution env p'
      = ({ p' with Answer := p.Answer }, none) := by
  rw [(AddSolution_accepted env be cache w p hgate hans).1]
  unfold Cache.GetSolution
  rw [if_neg (by simpa using hp')]
  obtain ⟨pre, post, he, hpre⟩ := addProblems_shape p cache.Spec.Problems
  show getLoop env p' (addProblems p cache.Spec.Problems) = _
  rw [he]
  apply getLoop_of_split
  · rintro r hr ⟨hq, ha⟩
    rcases hq with hq | hq
    · exact (hpre r hr).2 (hq.trans hid)
    · have := hshadow r (hpre r hr).1 (hpre r hr).2 ha
      rw [hq] at this
      exact Bool.noConfusion this
  · exact ⟨Or.inl hid.symm, hans⟩

/-- Witness of C1: the problem `q1` answered `8080` is added to an empty cache and found. -/
theorem C1_add_then_get_witness :
    ((cacheOf "f" false []).AddSolution descEnv memBackend (emptyWorld false)
        ⟨"q1", "Input", "port?", some "8080"⟩).2.1.GetSolution descEnv ⟨"q1", "Input", "port?", none⟩
      = (⟨"q1", "Input", "port?", some "8080"⟩, none) :=
  C1_add_then_get descEnv memBackend (cacheOf "f" false []) (emptyWorld false)
    ⟨"q1", "Input", "port?", some "8080"⟩ ⟨"q1", "Input", "port?", none⟩
    (by decide) (by decide) rfl rfl (by decide)

/-- C1 fails as stated: (1) with `persistPasswords = false` a password-typed problem
with a present `Answer` is rejected, and the following `GetSolution` returns an
error; (2) a stored record with another ID that matches `p'` comes first in the
sequence, and `GetSolution` returns its `Answer`, not the one just added. -/
theorem C1_counterexample :
    (((cacheOf "f" false []).AddSolution descEnv memBackend (emptyWorld false)
        ⟨"q1", "Password", "secret?", some "hunter2"⟩).2.1.GetSolution descEnv
        ⟨"q1", "Password", "secret?", none⟩).2 ≠ none
    ∧ (((cacheOf "f" true [⟨"q0", "Input", "port?", some "80"⟩]).AddSolution descEnv memBackend
        (emptyWorld false) ⟨"q1", "Input", "port?", some "8080"⟩).2.1.GetSolution descEnv
        ⟨"q1", "Input", "port?", none⟩) = (⟨"q1", "Input", "port?", some "80"⟩, none) := by
  decide

/-- C2 (as amended): for every cache state with at most one stored record of the ID
in question and every two problems `p1`, `p2` with `p1.ID = p2.ID`, where `p2` is
accepted by `AddSolution` (present `Answer`, not password-typed under
`persistPasswords = false`): after `AddSolution(p1)` followed by `AddSolution(p2)`
the records of the stored sequence with that ID are exactly the one record `p2`,
so the retained `Answer` is `p2.Answer`. -/
theorem C2_overwrite_same_id {σ : Type} (env : Env) (be : Backend σ) (cache : Cache)
    (w : World σ) (p1 p2 : Problem)
    (hid : p1.ID = p2.ID)
    (hans : p2.Answer ≠ none)
    (hgate : ¬(cache.Spec.persistPasswords = false ∧ p2.«Type» = env.PasswordSolutionFormType))
    (hone : (cache.Spec.Problems.filter (fun r => decide (r.ID = p2.ID))).length ≤ 1) :
    ((cache.AddSolution env be w p1).2.1.AddSolution env be
        (cache.AddSolution env be w p1).2.2 p2).2.1.Spec.Problems.filter
      (fun r => decide (r.ID = p2.ID)) = [p2] := by
  have hgate1 : ¬((cache.AddSolution env be w p1).2.1.Spec.persistPasswords = false
      ∧ p2.«Type» = env.PasswordSolutionFormType) := by
    rw [AddSolution_persistPasswords]; exact hgate
  have hone1 : ((cache.AddSolution env be w p1).2.1.Spec.Problems.filter
      (fun r => decide (r.ID = p2.ID))).length ≤ 1 := by
    rcases AddSolution_problems env be cache w p1 with h | h
    · rw [h]; exact hone
    · rw [h, ← hid, filter_addProblems p1 _ (by rw [hid]; exact hone)]
      simp
  rw [(AddSolution_accepted env be _ _ p2 hgate1 hans).1]
  exact filter_addProblems p2 _ hone1

/-- Witness of C2: `q1` answered `80`, then `q1` answered `8080`, on an empty cache. -/
theorem C2_overwrite_same_id_witness :
    (((cacheOf "f" false []).AddSolution descEnv memBackend (emptyWorld false)
        ⟨"q1", "Input", "port?", some "80"⟩).2.1.AddSolution descEnv memBackend
        ((cacheOf "f" false []).AddSolution descEnv memBackend (emptyWorld false)
          ⟨"q1", "Input", "port?", some "80"⟩).2.2
        ⟨"q1", "Input", "port?", some "8080"⟩).2.1.Spec.Problems.filter
      (fun r => decide (r.ID = "q1")) = [⟨"q1", "Input", "port?", some "8080"⟩] :=
  C2_overwrite_same_id descEnv memBackend (cacheOf "f" false []) (emptyWorld false)
    ⟨"q1", "Input", "port?", some "80"⟩ ⟨"q1", "Input", "port?", some "8080"⟩
    rfl (by decide) (by decide) (by decide)

/-- C2 fails as stated: (1) with `persistPasswords = false` two password-typed
problems with one ID and different present answers are both rejected and no record
of that ID is stored; (2) a cache that loaded a document with two records of one ID
keeps two records of that ID after the two calls. -/
theorem C2_counterexample :
    (((cacheOf "f" false []).AddSolution descEnv memBackend (emptyWorld false)
        ⟨"q1", "Password", "secret?", some "a"⟩).2.1.AddSolution descEnv memBackend
        ((cacheOf "f" false []).AddSolution descEnv memBackend (emptyWorld false)
          ⟨"q1", "Password", "secret?", some "a"⟩).2.2
        ⟨"q1", "Password", "secret?", some "b"⟩).2.1.Spec.Problems = []
    ∧ ((NewCache descEnv "f" true).Load descEnv memBackend
        (memWorld [("f", cacheOf "" false
          [⟨"q1", "Input", "port?", some "1"⟩, ⟨"q1", "Input", "host?", some "2"⟩])]
          false)).2.1.Spec.Problems
        = [⟨"q1", "Input", "port?", some "1"⟩, ⟨"q1", "Input", "host?", some "2"⟩]
    ∧ (((cacheOf "f" true [⟨"q1", "Input", "port?", some "1"⟩,
          ⟨"q1", "Input", "host?", some "2"⟩]).AddSolution descEnv memBackend (emptyWorld false)
        ⟨"q1", "Input", "port?", some "80"⟩).2.1.AddSolution descEnv memBackend
        ((cacheOf "f" true [⟨"q1", "Input", "port?", some "1"⟩,
          ⟨"q1", "Input", "host?", some "2"⟩]).AddSolution descEnv memBackend (emptyWorld false)
          ⟨"q1", "Input", "port?", some "80"⟩).2.2
        ⟨"q1", "Input", "port?", some "8080"⟩).2.1.Spec.Problems
        = [⟨"q1", "Input", "port?", some "8080"⟩, ⟨"q1", "Input", "host?", some "2"⟩] := by
  decide

/-- C3: with `persistPasswords = false`, `AddSolution` on a problem of the password
type, whatever its `Answer`, returns an error, leaves the cache (hence the stored
sequence) unchanged, and leaves the world unchanged: no call to `WriteYaml` is
added to the trace and the file system is the same. -/
theorem C3_password_rejected {σ : Type} (env : Env) (be : Backend σ) (cache : Cache)
    (w : World σ) (p : Problem)
    (hflag : cache.Spec.persistPasswords = false)
    (htype : p.«Type» = env.PasswordSolutionFormType) :
    (cache.AddSolution env be w p).1 ≠ none
    ∧ (cache.AddSolution env be w p).2.1.Spec.Problems = cache.Spec.Problems
    ∧ (cache.AddSolution env be w p).2.1 = cache
    ∧ (cache.AddSolution env be w p).2.2.writes = w.writes
    ∧ (cache.AddSolution env be w p).2.2 = w := by
  obtain ⟨h1, h2⟩ := AddSolution_rejected env be cache w p (Or.inl ⟨hflag, htype⟩)
  rw [h2]
  exact ⟨h1, rfl, rfl, rfl, rfl⟩

/-- Witness of C3: a password with a present answer on a cache holding one record. -/
theorem C3_password_rejected_witness :
    ((cacheOf "f" false [⟨"q0", "Input", "port?", some "80"⟩]).AddSolution descEnv memBackend
        (emptyWorld false) ⟨"q1", "Password", "secret?", some "hunter2"⟩).1 ≠ none
    ∧ ((cacheOf "f" false [⟨"q0", "Input", "port?", some "80"⟩]).AddSolution descEnv memBackend
        (emptyWorld false) ⟨"q1", "Password", "secret?", some "hunter2"⟩).2.1.Spec.Problems
      = [⟨"q0", "Input", "port?", some "80"⟩]
    ∧ ((cacheOf "f" false [⟨"q0", "Input", "port?", some "80"⟩]).AddSolution descEnv memBackend
        (emptyWorld false) ⟨"q1", "Password", "secret?", some "hunter2"⟩).2.2.writes = [] :=
  have h := C3_password_rejected descEnv memBackend
    (cacheOf "f" false [⟨"q0", "Input", "port?", some "80"⟩]) (emptyWorld false)
    ⟨"q1", "Password", "secret?", some "hunter2"⟩ rfl rfl
  ⟨h.1, h.2.1, h.2.2.2.1⟩

/-- C4: `AddSolution` on a problem whose `Answer` is absent returns an error, leaves
the cache (hence the stored sequence) unchanged, and leaves the world unchanged: no
call to `WriteYaml` is added to the trace and the file system is the same. -/
theorem C4_unresolved_rejected {σ : Type} (env : Env) (be : Backend σ) (cache : Cache)
    (w : World σ) (p : Problem)
    (hans : p.Answer = none) :
    (cache.AddSolution env be w p).1 ≠ none
    ∧ (cache.AddSolution env be w p).2.1.Spec.Problems = cache.Spec.Problems
    ∧ (cache.AddSolution env be w p).2.1 = cache
    ∧ (cache.AddSolution env be w p).2.2.writes = w.writes
    ∧ (cache.AddSolution env be w p).2.2 = w := by
  obtain ⟨h1, h2⟩ := AddSolution_rejected env be cache w p (Or.inr hans)
  rw [h2]
  exact ⟨h1, rfl, rfl, rfl, rfl⟩

/-- Witness of C4: an unanswered problem on a cache that persists passwords. -/
theorem C4_unresolved_rejected_witness :
    ((cacheOf "f" true [⟨"q0", "Input", "port?", some "80"⟩]).AddSolution descEnv memBackend
        (emptyWorld false) ⟨"q1", "Input", "host?", none⟩).1 ≠ none
    ∧ ((cacheOf "f" true [⟨"q0", "Input", "port?", some "80"⟩]).AddSolution descEnv memBackend
        (emptyWorld false) ⟨"q1", "Input", "host?", none⟩).2.1.Spec.Problems
      = [⟨"q0", "Input", "port?", some "80"⟩]
    ∧ ((cacheOf "f" true [⟨"q0", "Input", "port?", some "80"⟩]).AddSolution descEnv memBackend
        (emptyWorld false) ⟨"q1", "Input", "host?", none⟩).2.2.writes = [] :=
  have h := C4_unresolved_rejected descEnv memBackend
    (cacheOf "f" true [⟨"q0", "Input", "port?", some "80"⟩]) (emptyWorld false)
    ⟨"q1", "Input", "host?", none⟩ rfl
  ⟨h.1, h.2.1, h.2.2.2.1⟩

/-- C5: for a problem `p` with absent `Answer`, `GetSolution(p)` returns an error if
and only if no stored record `cp` satisfies (`cp.ID = p.ID` or `cp.matches(p)`) with
`cp.Answer` present; and whenever it returns an error the returned problem is `p`. -/
theorem C5_not_found (env : Env) (cache : Cache) (p : Problem)
    (hans : p.Answer = none) :
    ((cache.GetSolution env p).2 ≠ none ↔
      ¬ ∃ cp ∈ cache.Spec.Problems,
        (cp.ID = p.ID ∨ env.«matches» cp p = true) ∧ cp.Answer ≠ none)
    ∧ ((cache.GetSolution env p).2 ≠ none → (cache.GetSolution env p).1 = p) := by
  have hget : cache.GetSolution env p = getLoop env p cache.Spec.Problems := by
    unfold Cache.GetSolution
    rw [if_neg (by simpa using hans)]
  rw [hget]
  have hiff := getLoop_error_iff env p cache.Spec.Problems
  refine ⟨?_, ?_⟩
  · rw [hiff]
    constructor
    · rintro h ⟨cp, hcp, hq⟩
      exact h cp hcp hq
    · intro h cp hcp hq
      exact h ⟨cp, hcp, hq⟩
  · intro herr
    rw [getLoop_of_none env p _ (hiff.mp herr)]

/-- Witness of C5: the cache holds `q1`; looking up `q2`, which no record matches,
fails and gives `q2` back. -/
theorem C5_not_found_witness :
    (((cacheOf "f" false [⟨"q1", "Input", "port?", some "8080"⟩]).GetSolution descEnv
        ⟨"q2", "Input", "host?", none⟩).2 ≠ none ↔
      ¬ ∃ cp ∈ (cacheOf "f" false [⟨"q1", "Input", "port?", some "8080"⟩]).Spec.Problems,
        (cp.ID = "q2" ∨ descEnv.«matches» cp ⟨"q2", "Input", "host?", none⟩ = true)
          ∧ cp.Answer ≠ none)
    ∧ (((cacheOf "f" false [⟨"q1", "Input", "port?", some "8080"⟩]).GetSolution descEnv
        ⟨"q2", "Input", "host?", none⟩).2 ≠ none →
      ((cacheOf "f" false [⟨"q1", "Input", "port?", some "8080"⟩]).GetSolution descEnv
        ⟨"q2", "Input", "host?", none⟩).1 = ⟨"q2", "Input", "host?", none⟩) :=
  C5_not_found descEnv (cacheOf "f" false [⟨"q1", "Input", "port?", some "8080"⟩])
    ⟨"q2", "Input", "host?", none⟩ rfl

/-- C6: for a problem `p` with absent `Answer`, if the stored sequence splits as
`pre ++ cp :: post` where `cp` qualifies (`cp.ID = p.ID` or `cp.matches(p)`, and
`cp.Answer` present) and no record of `pre` qualifies, then `GetSolution(p)` returns
without error the problem equal to `p` in every field except `Answer`, whose `Answer`
is that of `cp`, whatever `post` holds; and such a split exists as soon as some
stored record qualifies. -/
theorem C6_first_match_wins (env : Env) (cache : Cache) (p : Problem)
    (hans : p.Answer = none)
    (hsome : ∃ r ∈ cache.Spec.Problems,
      (r.ID = p.ID ∨ env.«matches» r p = true) ∧ r.Answer ≠ none) :
    (∃ pre cp post, cache.Spec.Problems = pre ++ cp :: post
      ∧ (∀ r ∈ pre, ¬ ((r.ID = p.ID ∨ env.«matches» r p = true) ∧ r.Answer ≠ none))
      ∧ ((cp.ID = p.ID ∨ env.«matches» cp p = true) ∧ cp.Answer ≠ none))
    ∧ (∀ pre cp post, cache.Spec.Problems = pre ++ cp :: post →
      (∀ r ∈ pre, ¬ ((r.ID = p.ID ∨ env.«matches» r p = true) ∧ r.Answer ≠ none)) →
      ((cp.ID = p.ID ∨ env.«matches» cp p = true) ∧ cp.Answer ≠ none) →
      cache.GetSolution env p = ({ p with Answer := cp.Answer }, none)) := by
  have hget : cache.GetSolution env p = getLoop env p cache.Spec.Problems := by
    unfold Cache.GetSolution
    rw [if_neg (by simpa using hans)]
  refine ⟨?_, ?_⟩
  · obtain ⟨r, hr, hq⟩ := hsome
    have hex : ∃ r ∈ cache.Spec.Problems, qualifies env p r := ⟨r, hr, hq⟩
    generalize cache.Spec.Problems = s at hex
    clear hr hget
    induction s with
    | nil => obtain ⟨r, hr, _⟩ := hex; cases hr
    | cons a rest ih =>
      by_cases ha : qualifies env p a
      · exact ⟨[], a, rest, rfl, by simp, ha⟩
      · obtain ⟨r', hr', hq'⟩ := hex
        rcases List.mem_cons.mp hr' with rfl | hr'
        · exact absurd hq' ha
        · obtain ⟨pre, cp, post, he, hpre, hcp⟩ := ih ⟨r', hr', hq'⟩
          refine ⟨a :: pre, cp, post, by rw [he]; rfl, ?_, hcp⟩
          intro x hx
          rcases List.mem_cons.mp hx with rfl | hx
          · exact ha
          · exact hpre x hx
  · intro pre cp post he hpre hcp
    rw [hget, he]
    exact getLoop_of_split env p cp pre post hpre hcp

/-- Witness of C6: the record for `q1` with absent `Answer` is skipped, the record
that matches by description is taken, and the later record with the exact ID and
another answer does not override it. -/
theorem C6_first_match_wins_witness :
    (cacheOf "f" false [⟨"q1", "Input", "port?", none⟩, ⟨"q0", "Input", "port?", some "80"⟩,
        ⟨"q1", "Input", "port?", some "8080"⟩]).GetSolution descEnv ⟨"q1", "Input", "port?", none⟩
      = (⟨"q1", "Input", "port?", some "80"⟩, none) :=
  (C6_first_match_wins descEnv
    (cacheOf "f" false [⟨"q1", "Input", "port?", none⟩, ⟨"q0", "Input", "port?", some "80"⟩,
      ⟨"q1", "Input", "port?", some "8080"⟩])
    ⟨"q1", "Input", "port?", none⟩ rfl
    ⟨⟨"q0", "Input", "port?", some "80"⟩, by decide, by decide⟩).2
    [⟨"q1", "Input", "port?", none⟩] ⟨"q0", "Input", "port?", some "80"⟩
    [⟨"q1", "Input", "port?", some "8080"⟩] rfl (by decide) (by decide)

/-- C7: for a problem `p` accepted by `AddSolution` (present `Answer`, not
password-typed under `persistPasswords = false`): the length of the stored sequence
is unchanged when some stored record has the ID of `p`; if the stored sequence
splits as `pre ++ cp :: post` with `cp.ID = p.ID` and no record of `pre` with that
ID, the result is `pre ++ p :: post` (the first such record replaced at its index,
all else unchanged); if no stored record has that ID, the result is the old
sequence with `p` appended. The file and the flag of the cache are unchanged. -/
theorem C7_replace_or_append {σ : Type} (env : Env) (be : Backend σ) (cache : Cache)
    (w : World σ) (p : Problem)
    (hans : p.Answer ≠ none)
    (hgate : ¬(cache.Spec.persistPasswords = false ∧ p.«Type» = env.PasswordSolutionFormType)) :
    ((∃ r ∈ cache.Spec.Problems, r.ID = p.ID) →
      (cache.AddSolution env be w p).2.1.Spec.Problems.length = cache.Spec.Problems.length
      ∧ ∃ pre cp post, cache.Spec.Problems = pre ++ cp :: post
        ∧ (∀ r ∈ pre, r.ID ≠ p.ID) ∧ cp.ID = p.ID)
    ∧ (∀ pre cp post, cache.Spec.Problems = pre ++ cp :: post →
      (∀ r ∈ pre, r.ID ≠ p.ID) → cp.ID = p.ID →
      (cache.AddSolution env be w p).2.1.Spec.Problems = pre ++ p :: post)
    ∧ ((∀ r ∈ cache.Spec.Problems, r.ID ≠ p.ID) →
      (cache.AddSolution env be w p).2.1.Spec.Problems = cache.Spec.Problems ++ [p])
    ∧ (cache.AddSolution env be w p).2.1.Spec.file = cache.Spec.file
    ∧ (cache.AddSolution env be w p).2.1.Spec.persistPasswords = cache.Spec.persistPasswords := by
  rw [(AddSolution_accepted env be cache w p hgate hans).1]
  show (_ → (addProblems p cache.Spec.Problems).length = _ ∧ _)
    ∧ (∀ pre cp post, _ → _ → _ → addProblems p cache.Spec.Problems = _)
    ∧ (_ → addProblems p cache.Spec.Problems = _) ∧ _
  have hsplit : (∃ r ∈ cache.Spec.Problems, r.ID = p.ID) →
      ∃ pre cp post, cache.Spec.Problems = pre ++ cp :: post
        ∧ (∀ r ∈ pre, r.ID ≠ p.ID) ∧ cp.ID = p.ID := by
    generalize cache.Spec.Problems = s
    intro hex
    induction s with
    | nil => obtain ⟨r, hr, _⟩ := hex; cases hr
    | cons a rest ih =>
      by_cases ha : a.ID = p.ID
      · exact ⟨[], a, rest, rfl, by simp, ha⟩
      · obtain ⟨r, hr, hq⟩ := hex
        rcases List.mem_cons.mp hr with rfl | hr
        · exact absurd hq ha
        · obtain ⟨pre, cp, post, he, hpre, hcp⟩ := ih ⟨r, hr, hq⟩
          refine ⟨a :: pre, cp, post, by rw [he]; rfl, ?_, hcp⟩
          intro x hx
          rcases List.mem_cons.mp hx with rfl | hx
          · exact ha
          · exact hpre x hx
  refine ⟨?_, ?_, ?_, rfl, rfl⟩
  · intro hex
    obtain ⟨pre, cp, post, he, hpre, hcp⟩ := hsplit hex
    refine ⟨?_, pre, cp, post, he, hpre, hcp⟩
    rw [he, addProblems_of_split p cp pre post hpre hcp]
    simp
  · intro pre cp post he hpre hcp
    rw [he]
    exact addProblems_of_split p cp pre post hpre hcp
  · intro hno
    exact addProblems_of_not_mem p _ hno

/-- Witness of C7: of two stored records with the ID `q1` the first is replaced, and
a problem with a new ID goes to the end. -/
theorem C7_replace_or_append_witness :
    ((cacheOf "f" true [⟨"q0", "Input", "a?", some "0"⟩, ⟨"q1", "Input", "b?", some "1"⟩,
        ⟨"q1", "Input", "c?", some "2"⟩]).AddSolution descEnv memBackend (emptyWorld false)
        ⟨"q1", "Input", "d?", some "9"⟩).2.1.Spec.Problems
      = [⟨"q0", "Input", "a?", some "0"⟩, ⟨"q1", "Input", "d?", some "9"⟩,
        ⟨"q1", "Input", "c?", some "2"⟩] :=
  (C7_replace_or_append descEnv memBackend
    (cacheOf "f" true [⟨"q0", "Input", "a?", some "0"⟩, ⟨"q1", "Input", "b?", some "1"⟩,
      ⟨"q1", "Input", "c?", some "2"⟩]) (emptyWorld false)
    ⟨"q1", "Input", "d?", some "9"⟩ (by decide) (by decide)).2.1
    [⟨"q0", "Input", "a?", some "0"⟩] ⟨"q1", "Input", "b?", some "1"⟩
    [⟨"q1", "Input", "c?", some "2"⟩] rfl (by decide) rfl

/-- C8 (as amended): for every cache reachable from `NewCache` by any sequence of
`Load` calls, no record of the stored sequence matches a record at a later position;
hence, when `matches` is symmetric, no two records at distinct positions match. -/
theorem C8_loads_keep_one_per_class {σ : Type} (env : Env) (be : Backend σ) (file : String)
    (persistPasswords : Bool) (w : World σ) (ops : List Op)
    (hops : ∀ o ∈ ops, o = Op.load) :
    (run env be (NewCache env file persistPasswords, w) ops).1.Spec.Problems.Pairwise
      (fun op p => env.«matches» op p = false)
    ∧ ((∀ a b, env.«matches» a b = env.«matches» b a) →
      ∀ (i j : Nat) (hi : i < (run env be (NewCache env file persistPasswords, w)
          ops).1.Spec.Problems.length)
        (hj : j < (run env be (NewCache env file persistPasswords, w)
          ops).1.Spec.Problems.length),
        i ≠ j →
        env.«matches»
          ((run env be (NewCache env file persistPasswords, w) ops).1.Spec.Problems.get ⟨i, hi⟩)
          ((run env be (NewCache env file persistPasswords, w) ops).1.Spec.Problems.get ⟨j, hj⟩)
          = false) := by
  have hp := run_loads_pairwise env be ops (NewCache env file persistPasswords, w) hops
    (by simp [NewCache])
  refine ⟨hp, ?_⟩
  intro hsymm i j hi hj hij
  have hget := List.pairwise_iff_get.mp hp
  rcases Nat.lt_or_gt_of_ne hij with hlt | hgt
  · exact hget ⟨i, hi⟩ ⟨j, hj⟩ hlt
  · rw [hsymm]
    exact hget ⟨j, hj⟩ ⟨i, hi⟩ hgt

/-- Witness of C8: two loads of a document that holds two records of one class. -/
theorem C8_loads_keep_one_per_class_witness :
    (run descEnv memBackend (NewCache descEnv "f" false,
        memWorld [("f", cacheOf "" false
          [⟨"q1", "Input", "port?", some "1"⟩, ⟨"q2", "Input", "port?", some "2"⟩])] false)
        [Op.load, Op.load]).1.Spec.Problems.Pairwise
      (fun op p => descEnv.«matches» op p = false) :=
  (C8_loads_keep_one_per_class descEnv memBackend "f" false
    (memWorld [("f", cacheOf "" false
      [⟨"q1", "Input", "port?", some "1"⟩, ⟨"q2", "Input", "port?", some "2"⟩])] false)
    [Op.load, Op.load] (by decide)).1

/-- C8 fails as stated: (1) from `NewCache`, two `AddSolution` calls with different
IDs and one description store two records, and the first matches the second;
(2) with a `matches` that is not symmetric, one `Load` stores two records of which
the second matches the first. -/
theorem C8_counterexample :
    ((run descEnv memBackend (NewCache descEnv "f" true, emptyWorld false)
        [Op.add ⟨"q1", "Input", "port?", some "80"⟩,
          Op.add ⟨"q2", "Input", "port?", some "8080"⟩]).1.Spec.Problems
        = [⟨"q1", "Input", "port?", some "80"⟩, ⟨"q2", "Input", "port?", some "8080"⟩]
      ∧ descEnv.«matches» ⟨"q1", "Input", "port?", some "80"⟩
          ⟨"q2", "Input", "port?", some "8080"⟩ = true)
    ∧ ((run wildEnv memBackend (NewCache wildEnv "f" true,
        memWorld [("f", cacheOf "" false
          [⟨"q1", "Input", "port?", some "80"⟩, ⟨"q2", "Input", "*", some "any"⟩])] false)
        [Op.load]).1.Spec.Problems
        = [⟨"q1", "Input", "port?", some "80"⟩, ⟨"q2", "Input", "*", some "any"⟩]
      ∧ wildEnv.«matches» ⟨"q2", "Input", "*", some "any"⟩
          ⟨"q1", "Input", "port?", some "80"⟩ = true) := by
  decide

/-- C9: `merge` is purely additive: the stored sequence after `merge(c)` is the
sequence before it followed by a subsequence of the records of `c`, in the order of
`c`; the other fields of the cache are unchanged. -/
theorem C9_merge_additive (env : Env) (cache c : Cache) :
    (∃ ext, (cache.merge env c).Spec.Problems = cache.Spec.Problems ++ ext
      ∧ ext.Sublist c.Spec.Problems)
    ∧ cache.Spec.Problems <+: (cache.merge env c).Spec.Problems
    ∧ (cache.merge env c).Spec.file = cache.Spec.file
    ∧ (cache.merge env c).Spec.persistPasswords = cache.Spec.persistPasswords
    ∧ (cache.merge env c).Kind = cache.Kind
    ∧ (cache.merge env c).APIVersion = cache.APIVersion := by
  obtain ⟨ext, he, hs⟩ := mergeLoop_additive env c.Spec.Problems cache.Spec.Problems
  exact ⟨⟨ext, he, hs⟩, ⟨ext, he.symm⟩, rfl, rfl, rfl, rfl⟩

/-- C10: in `merge(c)`, when the sequence of `c` splits as `pre ++ p :: post`, let
`cur` be the receiver's sequence once `pre` is processed (the original records plus
those appended so far). Processing `p` gives `cur ++ [p]` if and only if no record
`op` of `cur` satisfies `op.matches(p)`, and gives `cur` unchanged if and only if
some record does; the result of the whole merge is the loop continued over `post`
from there. -/
theorem C10_merge_appends_iff_unmatched (env : Env) (cache c : Cache) (pre post : List Problem)
    (p : Problem) (hsplit : c.Spec.Problems = pre ++ p :: post) :
    (mergeLoop env cache.Spec.Problems (pre ++ [p])
        = mergeLoop env cache.Spec.Problems pre ++ [p]
      ↔ ¬ ∃ op ∈ mergeLoop env cache.Spec.Problems pre, env.«matches» op p = true)
    ∧ (mergeLoop env cache.Spec.Problems (pre ++ [p]) = mergeLoop env cache.Spec.Problems pre
      ↔ ∃ op ∈ mergeLoop env cache.Spec.Problems pre, env.«matches» op p = true)
    ∧ (cache.merge env c).Spec.Problems
      = mergeLoop env (mergeLoop env cache.Spec.Problems (pre ++ [p])) post := by
  have hstep : mergeLoop env cache.Spec.Problems (pre ++ [p])
      = if mergeFound env (mergeLoop env cache.Spec.Problems pre) p
        then mergeLoop env cache.Spec.Problems pre
        else mergeLoop env cache.Spec.Problems pre ++ [p] := by
    rw [mergeLoop_append, mergeLoop]
    split <;> rfl
  refine ⟨?_, ?_, ?_⟩
  · rw [hstep, ← mergeFound_eq_true_iff]
    by_cases hf : mergeFound env (mergeLoop env cache.Spec.Problems pre) p = true
    · simp [hf]
    · simp [hf]
  · rw [hstep, ← mergeFound_eq_true_iff]
    by_cases hf : mergeFound env (mergeLoop env cache.Spec.Problems pre) p = true
    · simp [hf]
    · simp [hf]
  · show mergeLoop env cache.Spec.Problems c.Spec.Problems = _
    rw [hsplit, ← mergeLoop_append]
    simp

/-- Witness of C10: the second record of the other cache matches the record just
appended and is skipped; the third matches nothing and is appended. -/
theorem C10_merge_appends_iff_unmatched_witness :
    ((cacheOf "f" false [⟨"q0", "Input", "host?", some "h"⟩]).merge descEnv
      (cacheOf "" false [⟨"q1", "Input", "port?", some "1"⟩, ⟨"q2", "Input", "port?", some "2"⟩,
        ⟨"q3", "Input", "user?", some "3"⟩])).Spec.Problems
      = mergeLoop descEnv (mergeLoop descEnv [⟨"q0", "Input", "host?", some "h"⟩]
          ([⟨"q1", "Input", "port?", some "1"⟩] ++ [⟨"q2", "Input", "port?", some "2"⟩]))
          [⟨"q3", "Input", "user?", some "3"⟩] :=
  (C10_merge_appends_iff_unmatched descEnv (cacheOf "f" false [⟨"q0", "Input", "host?", some "h"⟩])
    (cacheOf "" false [⟨"q1", "Input", "port?", some "1"⟩, ⟨"q2", "Input", "port?", some "2"⟩,
      ⟨"q3", "Input", "user?", some "3"⟩])
    [⟨"q1", "Input", "port?", some "1"⟩] [⟨"q3", "Input", "user?", some "3"⟩]
    ⟨"q2", "Input", "port?", some "2"⟩ rfl).2.2

/-- C11: `merge` is idempotent: for every cache `A` and every cache `B`, merging `B`
into `A` and then merging `B` into the result again yields the stored sequence of
merging `B` into `A` once (indeed the same cache). The method `matches` is declared
outside `cache.go`; the spec calls it an equivalence test, and the proof uses that
every problem matches itself. -/
theorem C11_merge_idempotent (env : Env) (hrefl : ∀ p, env.«matches» p p = true)
    (A B : Cache) :
    ((A.merge env B).merge env B).Spec.Problems = (A.merge env B).Spec.Problems
    ∧ (A.merge env B).merge env B = A.merge env B := by
  have h : mergeLoop env (mergeLoop env A.Spec.Problems B.Spec.Problems) B.Spec.Problems
      = mergeLoop env A.Spec.Problems B.Spec.Problems :=
    mergeLoop_of_all_found env _ _ (mergeLoop_covers env hrefl B.Spec.Problems A.Spec.Problems)
  refine ⟨h, ?_⟩
  show ({ A.merge env B with Spec := { (A.merge env B).Spec with
      Problems := mergeLoop env (A.merge env B).Spec.Problems B.Spec.Problems } } : Cache) = _
  show ({ A.merge env B with Spec := { (A.merge env B).Spec with
      Problems := mergeLoop env (mergeLoop env A.Spec.Problems B.Spec.Problems)
        B.Spec.Problems } } : Cache) = _
  rw [h]
  rfl

/-- Witness of C11: `B` holds a record that matches one of `A`, two records of one
class, and a new one; the second merge changes nothing. -/
theorem C11_merge_idempotent_witness :
    (((cacheOf "f" false [⟨"q0", "Input", "host?", some "h"⟩]).merge descEnv
        (cacheOf "" false [⟨"q9", "Input", "host?", some "x"⟩, ⟨"q1", "Input", "port?", some "1"⟩,
          ⟨"q2", "Input", "port?", some "2"⟩, ⟨"q3", "Input", "user?", some "3"⟩])).merge descEnv
        (cacheOf "" false [⟨"q9", "Input", "host?", some "x"⟩, ⟨"q1", "Input", "port?", some "1"⟩,
          ⟨"q2", "Input", "port?", some "2"⟩, ⟨"q3", "Input", "user?", some "3"⟩])).Spec.Problems
      = ((cacheOf "f" false [⟨"q0", "Input", "host?", some "h"⟩]).merge descEnv
        (cacheOf "" false [⟨"q9", "Input", "host?", some "x"⟩, ⟨"q1", "Input", "port?", some "1"⟩,
          ⟨"q2", "Input", "port?", some "2"⟩, ⟨"q3", "Input", "user?", some "3"⟩])).Spec.Problems :=
  (C11_merge_idempotent descEnv (by intro p; simp [descEnv])
    (cacheOf "f" false [⟨"q0", "Input", "host?", some "h"⟩])
    (cacheOf "" false [⟨"q9", "Input", "host?", some "x"⟩, ⟨"q1", "Input", "port?", some "1"⟩,
      ⟨"q2", "Input", "port?", some "2"⟩, ⟨"q3", "Input", "user?", some "3"⟩])).1

/-- C12 (as amended): for every two caches `A` and `B` such that no record of one
matches a record of the other and, within each, no record matches a later record of
the same cache, merging `B` into `A` gives `A`'s sequence followed by `B`'s, merging
`A` into `B` gives `B`'s followed by `A`'s, and so the two stored sequences contain
the same records. -/
theorem C12_merge_order_independent (env : Env) (A B : Cache)
    (hAB : ∀ a ∈ A.Spec.Problems, ∀ b ∈ B.Spec.Problems, env.«matches» a b = false)
    (hBA : ∀ b ∈ B.Spec.Problems, ∀ a ∈ A.Spec.Problems, env.«matches» b a = false)
    (hA : A.Spec.Problems.Pairwise (fun a b => env.«matches» a b = false))
    (hB : B.Spec.Problems.Pairwise (fun a b => env.«matches» a b = false)) :
    (A.merge env B).Spec.Problems = A.Spec.Problems ++ B.Spec.Problems
    ∧ (B.merge env A).Spec.Problems = B.Spec.Problems ++ A.Spec.Problems
    ∧ (∀ r, r ∈ (A.merge env B).Spec.Problems ↔ r ∈ (B.merge env A).Spec.Problems)
    ∧ ((A.merge env B).Spec.Problems).Perm ((B.merge env A).Spec.Problems) := by
  have h1 : (A.merge env B).Spec.Problems = A.Spec.Problems ++ B.Spec.Problems :=
    mergeLoop_of_none_found env _ _ hAB hB
  have h2 : (B.merge env A).Spec.Problems = B.Spec.Problems ++ A.Spec.Problems :=
    mergeLoop_of_none_found env _ _ hBA hA
  refine ⟨h1, h2, ?_, ?_⟩
  · intro r
    rw [h1, h2, List.mem_append, List.mem_append]
    exact Or.comm
  · rw [h1, h2]
    exact List.perm_append_comm

/-- Witness of C12: two caches with one record each, of different classes. -/
theorem C12_merge_order_independent_witness :
    ((cacheOf "a" false [⟨"q1", "Input", "port?", some "1"⟩]).merge descEnv
        (cacheOf "b" false [⟨"q2", "Input", "host?", some "2"⟩])).Spec.Problems
      = [⟨"q1", "Input", "port?", some "1"⟩, ⟨"q2", "Input", "host?", some "2"⟩]
    ∧ ((cacheOf "b" false [⟨"q2", "Input", "host?", some "2"⟩]).merge descEnv
        (cacheOf "a" false [⟨"q1", "Input", "port?", some "1"⟩])).Spec.Problems
      = [⟨"q2", "Input", "host?", some "2"⟩, ⟨"q1", "Input", "port?", some "1"⟩] :=
  have h := C12_merge_order_independent descEnv
    (cacheOf "a" false [⟨"q1", "Input", "port?", some "1"⟩])
    (cacheOf "b" false [⟨"q2", "Input", "host?", some "2"⟩])
    (by decide) (by decide) (by decide) (by decide)
  ⟨h.1, h.2.1⟩

/-- C12 fails as stated: `A` is empty, so no record of one cache matches a record of
the other, and `B`, reached from `NewCache` by two `AddSolution` calls, holds two
records of one class. Merging `B` into `A` keeps the first of them only, merging `A`
into `B` keeps both: the second record is in one result and not in the other. -/
theorem C12_counterexample :
    (run descEnv memBackend (NewCache descEnv "b" true, emptyWorld false)
        [Op.add ⟨"q1", "Input", "port?", some "80"⟩,
          Op.add ⟨"q2", "Input", "port?", some "8080"⟩]).1
      = cacheOf "b" true
        [⟨"q1", "Input", "port?", some "80"⟩, ⟨"q2", "Input", "port?", some "8080"⟩]
    ∧ ((NewCache descEnv "a" true).merge descEnv (cacheOf "b" true
        [⟨"q1", "Input", "port?", some "80"⟩, ⟨"q2", "Input", "port?", some "8080"⟩])).Spec.Problems
      = [⟨"q1", "Input", "port?", some "80"⟩]
    ∧ ((cacheOf "b" true [⟨"q1", "Input", "port?", some "80"⟩,
        ⟨"q2", "Input", "port?", some "8080"⟩]).merge descEnv
        (NewCache descEnv "a" true)).Spec.Problems
      = [⟨"q1", "Input", "port?", some "80"⟩, ⟨"q2", "Input", "port?", some "8080"⟩] := by
  decide

/-- C13 (as amended): after `AddSolution(p)`, either it returned no error, and then `p`
was accepted, the in-memory sequence holds `p`, and the updated cache is the document
handed to `WriteYaml`, which reported no error; or it returned an error, and then
either `p` was rejected and neither the cache nor the world changed, or `p` was
accepted, the in-memory sequence holds `p` all the same (no rollback) and the error
is the one of `WriteYaml`. -/
theorem C13_add_outcomes {σ : Type} (env : Env) (be : Backend σ) (cache : Cache)
    (w : World σ) (p : Problem) :
    ((cache.AddSolution env be w p).1 = none →
      p.Answer ≠ none
      ∧ ¬(cache.Spec.persistPasswords = false ∧ p.«Type» = env.PasswordSolutionFormType)
      ∧ (cache.AddSolution env be w p).2.1.Spec.Problems = addProblems p cache.Spec.Problems
      ∧ p ∈ (cache.AddSolution env be w p).2.1.Spec.Problems
      ∧ be.WriteYaml w.fs cache.Spec.file (cache.AddSolution env be w p).2.1
        = (none, (cache.AddSolution env be w p).2.2.fs)
      ∧ (cache.AddSolution env be w p).2.2.writes
        = w.writes ++ [(cache.Spec.file, (cache.AddSolution env be w p).2.1)])
    ∧ ((cache.AddSolution env be w p).1 ≠ none →
      ((((cache.Spec.persistPasswords = false ∧ p.«Type» = env.PasswordSolutionFormType)
            ∨ p.Answer = none)
          ∧ (cache.AddSolution env be w p).2 = (cache, w))
        ∨ (p.Answer ≠ none
          ∧ ¬(cache.Spec.persistPasswords = false ∧ p.«Type» = env.PasswordSolutionFormType)
          ∧ (cache.AddSolution env be w p).2.1.Spec.Problems
            = addProblems p cache.Spec.Problems
          ∧ p ∈ (cache.AddSolution env be w p).2.1.Spec.Problems
          ∧ (be.WriteYaml w.fs cache.Spec.file (cache.AddSolution env be w p).2.1).1
            = (cache.AddSolution env be w p).1
          ∧ (cache.AddSolution env be w p).2.2.writes
            = w.writes ++ [(cache.Spec.file, (cache.AddSolution env be w p).2.1)]))) := by
  by_cases hrej : (cache.Spec.persistPasswords = false ∧ p.«Type» = env.PasswordSolutionFormType)
      ∨ p.Answer = none
  · obtain ⟨h1, h2⟩ := AddSolution_rejected env be cache w p hrej
    exact ⟨fun h => absurd h h1, fun _ => Or.inl ⟨hrej, h2⟩⟩
  · have hgate : ¬(cache.Spec.persistPasswords = false
        ∧ p.«Type» = env.PasswordSolutionFormType) := fun h => hrej (Or.inl h)
    have hans : p.Answer ≠ none := fun h => hrej (Or.inr h)
    rw [AddSolution_accepted_eq env be cache w p hgate hans]
    refine ⟨fun h => ⟨hans, hgate, rfl, mem_addProblems_self p _, ?_, rfl⟩,
      fun _ => Or.inr ⟨hans, hgate, rfl, mem_addProblems_self p _, rfl, rfl⟩⟩
    exact Prod.ext h rfl

/-- C13 fails as stated: on a read-only file system `AddSolution` of an accepted
problem returns an error, the in-memory sequence holds the problem, and the backend
holds no document. -/
theorem C13_counterexample :
    ((cacheOf "f" true []).AddSolution descEnv memBackend (emptyWorld true)
        ⟨"q1", "Input", "port?", some "8080"⟩).1 = some "read-only file system"
    ∧ ((cacheOf "f" true []).AddSolution descEnv memBackend (emptyWorld true)
        ⟨"q1", "Input", "port?", some "8080"⟩).2.1.Spec.Problems
      = [⟨"q1", "Input", "port?", some "8080"⟩]
    ∧ ((cacheOf "f" true []).AddSolution descEnv memBackend (emptyWorld true)
        ⟨"q1", "Input", "port?", some "8080"⟩).2.2.fs.files = [] := by
  decide

/-- C14: when `WriteYaml` fails with `err` on the updated cache of an accepted problem
`p`, `AddSolution(p)` returns `err`, the in-memory sequence is the updated one and
holds `p`, and a later `GetSolution` for an unanswered problem with the ID of `p`
returns, without error, that problem with the `Answer` of `p`, provided no stored
record with another ID and a present `Answer` matches it. -/
theorem C14_write_failure_keeps_update {σ : Type} (env : Env) (be : Backend σ) (cache : Cache)
    (w : World σ) (p : Problem) (err : Error)
    (hans : p.Answer ≠ none)
    (hgate : ¬(cache.Spec.persistPasswords = false ∧ p.«Type» = env.PasswordSolutionFormType))
    (hfail : (be.WriteYaml w.fs cache.Spec.file
      { cache with Spec := { cache.Spec with
          Problems := addProblems p cache.Spec.Problems } }).1 = some err) :
    (cache.AddSolution env be w p).1 = some err
    ∧ (cache.AddSolution env be w p).2.1.Spec.Problems = addProblems p cache.Spec.Problems
    ∧ p ∈ (cache.AddSolution env be w p).2.1.Spec.Problems
    ∧ ∀ p' : Problem, p'.ID = p.ID → p'.Answer = none →
      (∀ cp ∈ cache.Spec.Problems, cp.ID ≠ p.ID → cp.Answer ≠ none →
        env.«matches» cp p' = false) →
      (cache.AddSolution env be w p).2.1.GetSolution env p'
        = ({ p' with Answer := p.Answer }, none) := by
  rw [AddSolution_accepted_eq env be cache w p hgate hans]
  refine ⟨hfail, rfl, mem_addProblems_self p _, ?_⟩
  intro p' hid hp' hshadow
  unfold Cache.GetSolution
  rw [if_neg (by simpa using hp')]
  exact getLoop_addProblems env p p' cache.Spec.Problems hans hid hshadow

/-- Witness of C14: on a read-only file system the answer to `q1` replaces the stored
one in memory, the error of the backend is returned, and the lookup finds `8080`. -/
theorem C14_write_failure_keeps_update_witness :
    ((cacheOf "f" true [⟨"q1", "Input", "port?", some "80"⟩]).AddSolution descEnv memBackend
        (emptyWorld true) ⟨"q1", "Input", "port?", some "8080"⟩).1 = some "read-only file system"
    ∧ ((cacheOf "f" true [⟨"q1", "Input", "port?", some "80"⟩]).AddSolution descEnv memBackend
        (emptyWorld true) ⟨"q1", "Input", "port?", some "8080"⟩).2.1.GetSolution descEnv
        ⟨"q1", "Input", "port?", none⟩ = (⟨"q1", "Input", "port?", some "8080"⟩, none) :=
  have h := C14_write_failure_keeps_update descEnv memBackend
    (cacheOf "f" true [⟨"q1", "Input", "port?", some "80"⟩]) (emptyWorld true)
    ⟨"q1", "Input", "port?", some "8080"⟩ "read-only file system" (by decide) (by decide) rfl
  ⟨h.1, h.2.2.2 ⟨"q1", "Input", "port?", none⟩ rfl rfl (by decide)⟩

/-- C15: `Load` returns an error exactly when the read of the bound path fails; in
that case the error is the one of the read and the cache and the world are unchanged;
when the read succeeds with a document `c`, `Load` returns no error and the cache is
the result of merging `c` into the current one. -/
theorem C15_load_outcomes {σ : Type} (env : Env) (be : Backend σ) (cache : Cache)
    (w : World σ) :
    ((cache.Load env be w).1 ≠ none ↔
      ∃ err, be.ReadMove2KubeYaml w.fs cache.Spec.file = Except.error err)
    ∧ (∀ err, be.ReadMove2KubeYaml w.fs cache.Spec.file = Except.error err →
      cache.Load env be w = (some err, cache, w))
    ∧ (∀ c, be.ReadMove2KubeYaml w.fs cache.Spec.file = Except.ok c →
      cache.Load env be w = (none, cache.merge env c, w)
      ∧ (cache.Load env be w).2.1.Spec.Problems
        = mergeLoop env cache.Spec.Problems c.Spec.Problems) := by
  unfold Cache.Load
  cases hread : be.ReadMove2KubeYaml w.fs cache.Spec.file with
  | error e =>
    refine ⟨⟨fun _ => ⟨e, rfl⟩, fun _ => by simp⟩, ?_, ?_⟩
    · intro err herr
      cases herr
      rfl
    · intro c hc
      cases hc
  | ok c0 =>
    refine ⟨⟨fun h => absurd rfl h, ?_⟩, ?_, ?_⟩
    · rintro ⟨err, herr⟩
      cases herr
    · intro err herr
      cases herr
    · intro c hc
      cases hc
      exact ⟨rfl, rfl⟩

/-- Witness of C15: the load of a missing file fails and leaves the cache as it was;
the load of a document with one new record appends it. -/
theorem C15_load_outcomes_witness :
    (cacheOf "f" false [⟨"q0", "Input", "host?", some "h"⟩]).Load descEnv memBackend
        (emptyWorld false)
      = (some "no such file", cacheOf "f" false [⟨"q0", "Input", "host?", some "h"⟩],
        emptyWorld false)
    ∧ ((cacheOf "f" false [⟨"q0", "Input", "host?", some "h"⟩]).Load descEnv memBackend
        (memWorld [("f", cacheOf "" false [⟨"q1", "Input", "port?", some "1"⟩])] false)).2.1
      = cacheOf "f" false [⟨"q0", "Input", "host?", some "h"⟩, ⟨"q1", "Input", "port?", some "1"⟩] :=
  ⟨(C15_load_outcomes descEnv memBackend (cacheOf "f" false [⟨"q0", "Input", "host?", some "h"⟩])
      (emptyWorld false)).2.1 "no such file" rfl,
    by
      rw [((C15_load_outcomes descEnv memBackend
        (cacheOf "f" false [⟨"q0", "Input", "host?", some "h"⟩])
        (memWorld [("f", cacheOf "" false [⟨"q1", "Input", "port?", some "1"⟩])] false)).2.2
        (cacheOf "" false [⟨"q1", "Input", "port?", some "1"⟩]) rfl).1]
      decide⟩

/-- C16 (the code at the failing input): from `NewCache`, one `Load` of a document
that holds a record with absent `Answer` returns no error and stores that record, so
a reachable cache holds an unresolved problem; the following `AddSolution` of another
problem hands a document with the unanswered record to `WriteYaml`, and the in-memory
file system then holds it. -/
theorem C16_load_stores_unanswered :
    ((NewCache descEnv "f" true).Load descEnv memBackend
        (memWorld [("f", cacheOf "" false [⟨"q1", "Input", "port?", none⟩])] false)).1 = none
    ∧ (run descEnv memBackend (NewCache descEnv "f" true,
        memWorld [("f", cacheOf "" false [⟨"q1", "Input", "port?", none⟩])] false)
        [Op.load]).1.Spec.Problems = [⟨"q1", "Input", "port?", none⟩]
    ∧ (run descEnv memBackend (NewCache descEnv "f" true,
        memWorld [("f", cacheOf "" false [⟨"q1", "Input", "port?", none⟩])] false)
        [Op.load, Op.add ⟨"q2", "Input", "host?", some "h"⟩]).2.writes
      = [("f", cacheOf "f" true
          [⟨"q1", "Input", "port?", none⟩, ⟨"q2", "Input", "host?", some "h"⟩])]
    ∧ memBackend.ReadMove2KubeYaml (run descEnv memBackend (NewCache descEnv "f" true,
        memWorld [("f", cacheOf "" false [⟨"q1", "Input", "port?", none⟩])] false)
        [Op.load, Op.add ⟨"q2", "Input", "host?", some "h"⟩]).2.fs "f"
      = Except.ok (cacheOf "f" true
          [⟨"q1", "Input", "port?", none⟩, ⟨"q2", "Input", "host?", some "h"⟩]) := by
  refine ⟨by decide, by decide, by decide, rfl⟩

/-- C17 (as amended): for a cache constructed with `persistPasswords = false` and any
sequence of `Load`, `AddSolution` and `Write` calls, if no document decoded by a
`Load` call of the sequence (read from the file system as the earlier calls left it)
holds a password-typed problem, then no document handed to `WriteYaml` during the
sequence holds a password-typed problem, and neither does the stored sequence. A
sequence without `Load` meets the condition on every backend. -/
theorem C17_no_password_written {σ : Type} (env : Env) (be : Backend σ) (file : String)
    (w : World σ) (ops : List Op)
    (hloads : ∀ c ∈ loadedDocs env be (NewCache env file false, w) ops,
      ∀ r ∈ c.Spec.Problems, r.«Type» ≠ env.PasswordSolutionFormType) :
    (∀ d ∈ (run env be (NewCache env file false, w) ops).2.writes,
      d ∈ w.writes ∨ ∀ r ∈ d.2.Spec.Problems, r.«Type» ≠ env.PasswordSolutionFormType)
    ∧ (∀ r ∈ (run env be (NewCache env file false, w) ops).1.Spec.Problems,
      r.«Type» ≠ env.PasswordSolutionFormType) :=
  have h := run_keeps env be (fun r => r.«Type» ≠ env.PasswordSolutionFormType) false w.writes
    (fun _ _ hgate htype => hgate ⟨rfl, htype⟩) ops (NewCache env file false, w) hloads
    ⟨rfl, by simp [NewCache], fun d hd => Or.inl hd⟩
  ⟨h.2.2, h.2.1⟩

/-- Witness of C17: over the in-memory file system, whose file holds one record that
is not a password: a load, a password that is rejected, an answer that is accepted
and written, a second load that reads back the document just written, and a write. -/
theorem C17_no_password_written_witness :
    (∀ d ∈ (run descEnv memBackend (NewCache descEnv "f" false,
        memWorld [("f", cacheOf "" false [⟨"q1", "Input", "port?", some "1"⟩])] false)
        [Op.load, Op.add ⟨"q2", "Password", "secret?", some "hunter2"⟩,
          Op.add ⟨"q3", "Input", "user?", some "u"⟩, Op.load, Op.write]).2.writes,
      d ∈ (memWorld [("f", cacheOf "" false [⟨"q1", "Input", "port?", some "1"⟩])] false).writes
        ∨ ∀ r ∈ d.2.Spec.Problems, r.«Type» ≠ descEnv.PasswordSolutionFormType)
    ∧ (∀ r ∈ (run descEnv memBackend (NewCache descEnv "f" false,
        memWorld [("f", cacheOf "" false [⟨"q1", "Input", "port?", some "1"⟩])] false)
        [Op.load, Op.add ⟨"q2", "Password", "secret?", some "hunter2"⟩,
          Op.add ⟨"q3", "Input", "user?", some "u"⟩, Op.load, Op.write]).1.Spec.Problems,
      r.«Type» ≠ descEnv.PasswordSolutionFormType) :=
  C17_no_password_written descEnv memBackend "f"
    (memWorld [("f", cacheOf "" false [⟨"q1", "Input", "port?", some "1"⟩])] false)
    [Op.load, Op.add ⟨"q2", "Password", "secret?", some "hunter2"⟩,
      Op.add ⟨"q3", "Input", "user?", some "u"⟩, Op.load, Op.write]
    (by decide)

/-- C17 fails as stated: a cache constructed with `persistPasswords = false` loads a
document that holds a password-typed problem; the following `AddSolution` of another
problem, and equally a plain `Write`, hands a document with the password-typed
problem to `WriteYaml`. -/
theorem C17_counterexample :
    (run descEnv memBackend (NewCache descEnv "f" false,
        memWorld [("f", cacheOf "" false [⟨"q1", "Password", "secret?", some "hunter2"⟩])] false)
        [Op.load, Op.add ⟨"q2", "Input", "host?", some "h"⟩]).2.writes
      = [("f", cacheOf "f" false
          [⟨"q1", "Password", "secret?", some "hunter2"⟩, ⟨"q2", "Input", "host?", some "h"⟩])]
    ∧ (run descEnv memBackend (NewCache descEnv "f" false,
        memWorld [("f", cacheOf "" false [⟨"q1", "Password", "secret?", some "hunter2"⟩])] false)
        [Op.load, Op.write]).2.writes
      = [("f", cacheOf "f" false [⟨"q1", "Password", "secret?", some "hunter2"⟩])] := by
  decide

/-- C18: for a problem `p` whose `Answer` is present, `GetSolution(p)` returns `p`
unchanged with no error, whatever the stored sequence holds; and for every problem
`q`, if `GetSolution(q)` returns no error, then `GetSolution` applied to the returned
problem returns it again with no error. -/
theorem C18_answered_returned_unchanged (env : Env) (cache : Cache) (p : Problem)
    (hans : p.Answer ≠ none) :
    cache.GetSolution env p = (p, none)
    ∧ ∀ q : Problem, (cache.GetSolution env q).2 = none →
      cache.GetSolution env (cache.GetSolution env q).1 = ((cache.GetSolution env q).1, none) := by
  have hfix : ∀ x : Problem, x.Answer ≠ none → cache.GetSolution env x = (x, none) := by
    intro x hx
    unfold Cache.GetSolution
    rw [if_pos hx]
  refine ⟨hfix p hans, ?_⟩
  intro q hq
  apply hfix
  by_cases hqa : q.Answer ≠ none
  · rw [hfix q hqa]
    exact hqa
  · unfold Cache.GetSolution at hq ⊢
    rw [if_neg hqa] at hq ⊢
    exact getLoop_ok_answer env q _ hq

/-- Witness of C18: the cache holds another answer for `q1`; the answered problem
comes back as it is, and the result of a successful lookup is a fixed point. -/
theorem C18_answered_returned_unchanged_witness :
    (cacheOf "f" false [⟨"q1", "Input", "port?", some "80"⟩]).GetSolution descEnv
        ⟨"q1", "Input", "port?", some "8080"⟩ = (⟨"q1", "Input", "port?", some "8080"⟩, none)
    ∧ (cacheOf "f" false [⟨"q1", "Input", "port?", some "80"⟩]).GetSolution descEnv
        ((cacheOf "f" false [⟨"q1", "Input", "port?", some "80"⟩]).GetSolution descEnv
          ⟨"q1", "Input", "port?", none⟩).1
      = (((cacheOf "f" false [⟨"q1", "Input", "port?", some "80"⟩]).GetSolution descEnv
          ⟨"q1", "Input", "port?", none⟩).1, none) :=
  have h := C18_answered_returned_unchanged descEnv
    (cacheOf "f" false [⟨"q1", "Input", "port?", some "80"⟩])
    ⟨"q1", "Input", "port?", some "8080"⟩ (by decide)
  ⟨h.1, h.2 ⟨"q1", "Input", "port?", none⟩ (by decide)⟩

/-- C19: when the stored records have pairwise distinct IDs, the stored records after
`AddSolution(p)`, accepted or rejected, whether or not the write succeeds, again have
pairwise distinct IDs; the sequence does not shrink and grows by at most one. -/
theorem C19_ids_stay_distinct {σ : Type} (env : Env) (be : Backend σ) (cache : Cache)
    (w : World σ) (p : Problem)
    (hids : (cache.Spec.Problems.map Problem.ID).Nodup) :
    ((cache.AddSolution env be w p).2.1.Spec.Problems.map Problem.ID).Nodup
    ∧ (cache.AddSolution env be w p).2.1.Spec.Problems.length ≤ cache.Spec.Problems.length + 1
    ∧ cache.Spec.Problems.length ≤ (cache.AddSolution env be w p).2.1.Spec.Problems.length := by
  rcases AddSolution_problems env be cache w p with h | h
  · rw [h]
    exact ⟨hids, Nat.le_succ _, Nat.le_refl _⟩
  · rw [h]
    exact ⟨addProblems_ids_nodup p _ hids, (length_addProblems p _).2, (length_addProblems p _).1⟩

/-- Witness of C19: a new answer for the stored ID `q1` on a cache with two records. -/
theorem C19_ids_stay_distinct_witness :
    (((cacheOf "f" true [⟨"q0", "Input", "a?", some "0"⟩,
        ⟨"q1", "Input", "b?", some "1"⟩]).AddSolution descEnv memBackend (emptyWorld false)
        ⟨"q1", "Input", "c?", some "9"⟩).2.1.Spec.Problems.map Problem.ID).Nodup
    ∧ ((cacheOf "f" true [⟨"q0", "Input", "a?", some "0"⟩,
        ⟨"q1", "Input", "b?", some "1"⟩]).AddSolution descEnv memBackend (emptyWorld false)
        ⟨"q1", "Input", "c?", some "9"⟩).2.1.Spec.Problems.length
      ≤ (cacheOf "f" true [⟨"q0", "Input", "a?", some "0"⟩,
        ⟨"q1", "Input", "b?", some "1"⟩]).Spec.Problems.length + 1 :=
  have h := C19_ids_stay_distinct descEnv memBackend
    (cacheOf "f" true [⟨"q0", "Input", "a?", some "0"⟩, ⟨"q1", "Input", "b?", some "1"⟩])
    (emptyWorld false) ⟨"q1", "Input", "c?", some "9"⟩ (by decide)
  ⟨h.1, h.2.1⟩

/-- C20: `GetSolution` is read-only: in state-passing form it returns the cache it
received (so the stored sequence, the bound path and the `persistPasswords` flag are
the same) and the world it received (the file system and the trace of calls to
`WriteYaml` are the same), whether it succeeds or fails; and its results are those of
`GetSolution` computed from the cache alone. -/
theorem C20_get_is_read_only {σ : Type} (env : Env) (cache : Cache) (w : World σ)
    (p : Problem) :
    (cache.GetSolutionState env w p).2.1 = cache
    ∧ (cache.GetSolutionState env w p).2.1.Spec.Problems = cache.Spec.Problems
    ∧ (cache.GetSolutionState env w p).2.1.Spec.file = cache.Spec.file
    ∧ (cache.GetSolutionState env w p).2.1.Spec.persistPasswords = cache.Spec.persistPasswords
    ∧ (cache.GetSolutionState env w p).2.2 = w
    ∧ (cache.GetSolutionState env w p).2.2.writes = w.writes
    ∧ (cache.GetSolutionState env w p).1 = cache.GetSolution env p := by
  have h : cache.GetSolutionState env w p = (cache.GetSolution env p, cache, w) := by
    unfold Cache.GetSolutionState Cache.GetSolution
    by_cases hp : p.Answer ≠ none
    · rw [if_pos hp, if_pos hp]
    · rw [if_neg hp, if_neg hp]
      exact getLoopState_eq env cache w p _
  rw [h]
  exact ⟨rfl, rfl, rfl, rfl, rfl, rfl, rfl⟩

end QAEngine
